import Mathlib

/-!
The directory system calls of `userprog/syscall.c`

A shallow embedding of `chdir`, `mkdir`, `readdir` and `isdir` together with the
directory layer they call, and the properties proved about them.
-/

namespace Syscall

/-! ## Strings -/

/-- A C string, without its terminating NUL. -/
abbrev CString := List Char

/-- Modelled from the spec: `strlen` (lib/string.c, not among the sources); the
number of characters before the terminator. -/
def strlen (s : CString) : Nat := s.length

/-- Modelled from the spec: `strcmp` (lib/string.c, not among the sources); only
its comparison with zero is used, so the model returns `0` on equal strings and
`1` otherwise. -/
def strcmp (a b : CString) : Int := if a = b then 0 else 1

/-- Modelled from the spec: `strlcpy` (lib/string.c, not among the sources) into a
zeroed buffer: with a size of `0` nothing is copied, otherwise the first
`size - 1` characters of the source are. -/
def strlcpy (src : CString) (size : Nat) : CString :=
  if size = 0 then [] else src.take (size - 1)

/-- The loop of `mkdir` lines 79-81,
`while (index >= 0 && dir[index] != '/') index--;`, run for at most `fuel`
iterations. -/
def mkdir_scan (dir_ : CString) : Nat → Int → Int
  | 0, index => index
  | fuel + 1, index =>
    if index ≥ 0 ∧ dir_[index.toNat]? ≠ some '/' then
      mkdir_scan dir_ fuel (index - 1)
    else index

/-- Lines 78-82 of `mkdir`: `index = strlen(dir) - 1`, the backward scan, then
`index++`.  The scan is given `strlen(dir)` iterations.  A path is far shorter
than `2^31` characters, so the `int` arithmetic is exact. -/
def mkdir_index (dir_ : CString) : Int :=
  mkdir_scan dir_ (strlen dir_) ((strlen dir_ : Int) - 1) + 1

/-! ## Disk, entry stores and the storage allocator -/

/-- A sector number; it doubles as the inode number of what it backs. -/
abbrev block_sector_t := Nat

/-- Constants and limits declared in headers that are not among the sources. -/
structure Config where
  /-- The sector of the root directory (filesys/filesys.h). -/
  ROOT_DIR_SECTOR : block_sector_t
  /-- The longest entry name an entry store accepts (filesys/directory.h). -/
  NAME_MAX : Nat
  /-- The number of slots `mkdir` asks for in a new entry store. -/
  DIR_CREATE_CNST : Nat
  /-- The number of slots an entry store can hold at most. -/
  dir_max_entries : Nat
  /-- The kernel address at which the in-memory inode of a sector lives. -/
  inode_addr : block_sector_t → Nat

/-- Modelled from the spec: a record of a directory's entry store (§3,
"Directory Entry": name, target identifier, in-use flag). -/
structure dir_entry where
  inode_sector : block_sector_t
  name : CString
  in_use : Bool
deriving DecidableEq, Repr

/-- Modelled from the spec: what a sector of the disk holds.  A sector is free,
reserved by the storage allocator without an inode on it yet, the inode of an
ordinary file, or the inode of a directory together with its entry store. -/
inductive sector_data where
  | free : sector_data
  | reserved : sector_data
  | file : sector_data
  | directory (entries : List dir_entry) : sector_data
deriving DecidableEq, Repr

/-- Modelled from the spec: the in-memory inode (`struct inode`, filesys/inode.c).
`addr` is the address of the structure, the value a `struct inode *` holds. -/
structure inode where
  addr : Nat
  sector : block_sector_t
deriving DecidableEq, Repr

/-- Modelled from the spec: an open directory handle (`struct dir`,
filesys/directory.c): the identity of the handle, its inode and its scan
cursor. -/
structure dir where
  id : Nat
  inode : inode
  pos : Nat
deriving DecidableEq, Repr

/-- Modelled from the spec: the object behind a descriptor (`struct file`,
filesys/file.c).  `readdir` reads it through a `struct dir *`, so only the inode
pointer (possibly null) and the position are kept. -/
structure file where
  inode : Option inode
  pos : Nat
deriving DecidableEq, Repr

/-- The file system and the state of the running thread. -/
structure State where
  /-- The disk, indexed by sector number. -/
  disk : List sector_data
  /-- The identity the next opened directory handle gets. -/
  next_dir : Nat
  /-- The identities of the directory handles that are open. -/
  open_dirs : List Nat
  /-- The working directory `thread_current()->curr_dir`, `none` when unset. -/
  curr_dir : Option dir
  /-- The descriptor table `thread_current()->fd_list`. -/
  fd_list : Nat → Option file

/-- The entry store of the directory at `sector`, if that sector holds one. -/
def dir_entries (disk : List sector_data) (sector : block_sector_t) :
    Option (List dir_entry) :=
  match disk.get? sector with
  | some (sector_data.directory es) => some es
  | _ => none

/-- Modelled from the spec: `lookup` of the entry store (§6): the target of the
first in-use record with the given name. -/
def lookup (es : List dir_entry) (name : CString) : Option block_sector_t :=
  match es with
  | [] => none
  | e :: rest => if e.in_use = true ∧ e.name = name then some e.inode_sector
                 else lookup rest name

/-- Writes `e` into the first record of `es` that is not in use. -/
def fill_slot (es : List dir_entry) (e : dir_entry) : Option (List dir_entry) :=
  match es with
  | [] => none
  | x :: rest =>
    if x.in_use = true then (fill_slot rest e).map (fun r => x :: r)
    else some (e :: rest)

/-- Modelled from the spec: `insert` of the entry store (§6) on the table itself.
It fails on an empty or too long name and on a name already present (§3, names
are unique); it takes the first record not in use, or a new record at the end
while the store is below its size limit. -/
def insert (cfg : Config) (es : List dir_entry) (name : CString)
    (sector : block_sector_t) : Option (List dir_entry) :=
  if name = [] ∨ strlen name > cfg.NAME_MAX then none
  else if (lookup es name).isSome then none
  else
    let e : dir_entry := { inode_sector := sector, name := name, in_use := true }
    match fill_slot es e with
    | some es1 => some es1
    | none => if es.length < cfg.dir_max_entries then some (es ++ [e]) else none

/-- Modelled from the spec: `inode_open` (filesys/inode.c): the in-memory inode of
a sector. -/
def inode_open (cfg : Config) (sector : block_sector_t) : inode :=
  { addr := cfg.inode_addr sector, sector := sector }

/-- Modelled from the spec: `inode_close`.  Reference counts of in-memory inodes
are not part of the state, so closing (also closing `NULL`) leaves it as is. -/
def inode_close (st : State) (_i : Option inode) : State := st

/-- Modelled from the spec: `inode_get_inumber`, `identifier_of` in §6. -/
def inode_get_inumber (i : inode) : block_sector_t := i.sector

/-- Modelled from the spec: `inode_is_subdir`, `is_directory_type` in §6: whether
the identifier is flagged as a directory. -/
def inode_is_subdir (st : State) (i : inode) : Bool :=
  (dir_entries st.disk i.sector).isSome

/-- Modelled from the spec: `dir_get_inode`. -/
def dir_get_inode (d : dir) : inode := d.inode

/-- Modelled from the spec: `dir_open`, `open` in §6: a new handle on the inode,
its cursor at the start. -/
def dir_open (st : State) (i : inode) : dir × State :=
  ({ id := st.next_dir, inode := i, pos := 0 },
   { st with next_dir := st.next_dir + 1, open_dirs := st.next_dir :: st.open_dirs })

/-- Modelled from the spec: `dir_open_root`: a new handle on the root
directory. -/
def dir_open_root (cfg : Config) (st : State) : dir × State :=
  dir_open st (inode_open cfg cfg.ROOT_DIR_SECTOR)

/-- Modelled from the spec: `dir_close`, `close` in §6; closing `NULL` does
nothing. -/
def dir_close (st : State) (d : Option dir) : State :=
  match d with
  | none => st
  | some h => { st with open_dirs := st.open_dirs.erase h.id }

/-- Modelled from the spec: `dir_lookup`: looks the name up in the handle's entry
store and opens the inode it finds. -/
def dir_lookup (cfg : Config) (st : State) (d : dir) (name : CString) : Option inode :=
  match dir_entries st.disk d.inode.sector with
  | none => none
  | some es => (lookup es name).map (inode_open cfg)

/-- Modelled from the spec: `dir_add`: inserts (name, sector) into the handle's
entry store; `none` is the C `false`, and then nothing has changed. -/
def dir_add (cfg : Config) (st : State) (d : dir) (name : CString)
    (inode_sector : block_sector_t) : Option State :=
  match dir_entries st.disk d.inode.sector with
  | none => none
  | some es =>
    match insert cfg es name inode_sector with
    | none => none
    | some es1 =>
      some { st with disk := st.disk.set d.inode.sector (sector_data.directory es1) }

/-- The first free sector at or after `base` among `disk`. -/
def first_free (disk : List sector_data) (base : Nat) : Option block_sector_t :=
  match disk with
  | [] => none
  | x :: rest => if x = sector_data.free then some base else first_free rest (base + 1)

/-- Modelled from the spec: `free_map_allocate (1, &sector)`, `allocate` in §6:
reserves the first free sector, or fails (`none`) when there is none. -/
def free_map_allocate (st : State) : Option (block_sector_t × State) :=
  match first_free st.disk 0 with
  | none => none
  | some s => some (s, { st with disk := st.disk.set s sector_data.reserved })

/-- An entry store of `entry_cnt` records, none in use. -/
def empty_store (entry_cnt : Nat) : List dir_entry :=
  List.replicate entry_cnt { inode_sector := 0, name := [], in_use := false }

/-- Modelled from the spec: `dir_create`, `create_entry_store` in §6: initialises
the sector as a directory whose store has `entry_cnt` records, none in use.  It
fails (`none`) when the store would exceed the size limit or the sector is not
on the disk. -/
def dir_create (cfg : Config) (st : State) (sector : block_sector_t) (entry_cnt : Nat) :
    Option State :=
  if entry_cnt ≤ cfg.dir_max_entries ∧ sector < st.disk.length then
    some { st with disk := st.disk.set sector (sector_data.directory (empty_store entry_cnt)) }
  else none

/-- Modelled from the spec: `scan_next` of the entry store (§6) over the records
from the cursor on: the name of the first record in use and the cursor just
past it, or `none` and the cursor at the end. -/
def scan_next (es : List dir_entry) (pos : Nat) : Option CString × Nat :=
  match es with
  | [] => (none, pos)
  | e :: rest => if e.in_use = true then (some e.name, pos + 1) else scan_next rest (pos + 1)

/-- Modelled from the spec: `dir_readdir` on a handle with inode `i` and cursor
`pos`: the next name in scan order and the new cursor. -/
def dir_readdir (st : State) (i : inode) (pos : Nat) : Option CString × Nat :=
  match dir_entries st.disk i.sector with
  | none => (none, pos)
  | some es => scan_next (es.drop pos) pos

/-! ## Path resolver -/

/-- Splits a path at the separators, `cur` being the component read so far
(reversed); empty components are dropped. -/
def split_path_aux : CString → CString → List CString
  | [], cur => if cur = [] then [] else [cur.reverse]
  | c :: rest, cur =>
    if c = '/' then
      if cur = [] then split_path_aux rest [] else cur.reverse :: split_path_aux rest []
    else split_path_aux rest (c :: cur)

/-- Modelled from the spec: the components of a path (§3, §4.1). -/
def split_path (path : CString) : List CString := split_path_aux path []

/-- Modelled from the spec: the walk of the path resolver (§4.1).  `cur` is the
handle reached so far and `owned` says whether the resolver opened it (it is
then closed when the walk leaves it; the caller's working-directory handle is
never closed).  Each component is looked up in `cur`; a missing entry or a
target that is not a directory fails. -/
def resolve_walk (cfg : Config) : List CString → State → dir → Bool → Option dir × State
  | [], st, cur, _ => (some cur, st)
  | c :: cs, st, cur, owned =>
    match dir_lookup cfg st cur c with
    | none => (none, if owned then dir_close st (some cur) else st)
    | some i =>
      if inode_is_subdir st i then
        let r := dir_open st i
        resolve_walk cfg cs (if owned then dir_close r.2 (some cur) else r.2) r.1 true
      else (none, if owned then dir_close st (some cur) else st)

/-- Modelled from the spec: `handle_rel_abs_dir`, the path resolver (§4.1), which
is not among the sources.  A path starting with the separator is walked from a
newly opened root handle, any other path from the caller's working directory
(from the root when unset). -/
def handle_rel_abs_dir (cfg : Config) (st : State) (path : CString) : Option dir × State :=
  if path.head? = some '/' then
    let r := dir_open_root cfg st
    resolve_walk cfg (split_path path) r.2 r.1 true
  else
    match st.curr_dir with
    | some cwd => resolve_walk cfg (split_path path) st cwd false
    | none =>
      let r := dir_open_root cfg st
      resolve_walk cfg (split_path path) r.2 r.1 true

/-! ## The system calls of `userprog/syscall.c` -/

/-- System call `chdir` (lines 39-57).  A null `dir` is `none`.  The test on line 45 compares
the pointer `dir_get_inode (curr_dir)` itself with `ROOT_DIR_SECTOR`. -/
def chdir (cfg : Config) (st : State) (dir_ : Option CString) : Bool × State :=
  match dir_ with
  | none => (false, st)
  | some path =>
    if strlen path = 0 then (false, st)
    else if (match st.curr_dir with
             | none => true
             | some cwd => decide ((dir_get_inode cwd).addr = cfg.ROOT_DIR_SECTOR)) = true
          ∧ (strcmp path ['/'] = 0 ∨ strcmp path ['.', '.'] = 0 ∨ strcmp path ['.'] = 0) then
      (false, st)
    else
      match handle_rel_abs_dir cfg st path with
      | (none, st1) => (false, st1)
      | (some directory, st1) =>
        (true, { dir_close st1 st1.curr_dir with curr_dir := some directory })

/-- System call `mkdir` (lines 66-157): the result and the state it leaves. -/
def mkdir (cfg : Config) (st : State) (dir_ : CString) : Bool × State :=
  if strlen dir_ = 0 then (false, st)
  else
    match handle_rel_abs_dir cfg st dir_ with
    | (some target, st1) => (false, dir_close st1 (some target))
    | (none, st1) =>
      let st2 := dir_close st1 none
      let index := mkdir_index dir_
      if index = 1 ∨ index = 0 then
        match free_map_allocate st2 with
        | none => (false, st2)
        | some (new_dir, st3) =>
          match dir_create cfg st3 new_dir cfg.DIR_CREATE_CNST with
          | none => (false, st3)
          | some st4 =>
            let name := if index = 1 then dir_.drop 1 else dir_
            match decide (index = 0), st4.curr_dir with
            | true, some cwd =>
              match dir_add cfg st4 cwd name new_dir with
              | none => (false, st4)
              | some st5 =>
                match dir_lookup cfg st5 cwd name with
                | none => (false, inode_close st5 none)
                | some i =>
                  let c := dir_open st5 i
                  match dir_add cfg c.2 c.1 ['.'] new_dir with
                  | none => (false, dir_close c.2 (some c.1))
                  | some st6 =>
                    match dir_add cfg st6 c.1 ['.', '.']
                        (inode_get_inumber (dir_get_inode cwd)) with
                    | none => (false, dir_close st6 (some c.1))
                    | some st7 => (true, dir_close st7 (some c.1))
            | _, _ =>
              let r1 := dir_open_root cfg st4
              match dir_add cfg r1.2 r1.1 name new_dir with
              | none => (false, r1.2)
              | some st5 =>
                let r2 := dir_open_root cfg st5
                match dir_lookup cfg r2.2 r2.1 name with
                | none => (false, inode_close r2.2 none)
                | some i =>
                  let c := dir_open r2.2 i
                  match dir_add cfg c.2 c.1 ['.'] new_dir with
                  | none => (false, dir_close c.2 (some c.1))
                  | some st6 =>
                    match dir_add cfg st6 c.1 ['.', '.'] cfg.ROOT_DIR_SECTOR with
                    | none => (false, dir_close st6 (some c.1))
                    | some st7 => (true, dir_close st7 (some c.1))
      else
        let prev_name := strlcpy dir_ index.toNat
        match handle_rel_abs_dir cfg st2 prev_name with
        | (none, st3) => (false, st3)
        | (some target, st3) =>
          match free_map_allocate st3 with
          | none => (false, st3)
          | some (new_dir, st4) =>
            match dir_create cfg st4 new_dir cfg.DIR_CREATE_CNST with
            | none => (false, st4)
            | some st5 =>
              match dir_add cfg st5 target (dir_.drop index.toNat) new_dir with
              | none => (false, st5)
              | some st6 =>
                match dir_lookup cfg st6 target (dir_.drop index.toNat) with
                | none => (false, inode_close st6 none)
                | some i =>
                  let c := dir_open st6 i
                  match dir_add cfg c.2 c.1 ['.'] new_dir with
                  | none => (false, dir_close c.2 (some c.1))
                  | some st7 =>
                    match dir_add cfg st7 c.1 ['.', '.']
                        (inode_get_inumber (dir_get_inode target)) with
                    | none => (false, dir_close st7 (some c.1))
                    | some st8 => (true, dir_close st8 (some c.1))

/-- The number of `dir_readdir` calls the filter loop of `readdir` is given: one
more than the number of records of the directory. -/
def readdir_fuel (st : State) (i : inode) : Nat :=
  ((dir_entries st.disk i.sector).getD []).length + 1

/-- The filter loop of `readdir` (lines 195-202), run for at most `fuel`
iterations, on `continue_readdir`, the name buffer and the cursor. -/
def readdir_loop (st : State) (i : inode) : Nat → Bool → CString → Nat → Bool × CString × Nat
  | 0, continue_readdir, name, pos => (continue_readdir, name, pos)
  | fuel + 1, continue_readdir, name, pos =>
    if continue_readdir = true then
      if strcmp name ['.'] ≠ 0 ∧ strcmp name ['.', '.'] ≠ 0 then
        (continue_readdir, name, pos)
      else
        let r := dir_readdir st i pos
        readdir_loop st i fuel r.1.isSome (r.1.getD name) r.2
    else (continue_readdir, name, pos)

/-- System call `readdir` (lines 174-204): the result, the name buffer and the state, in which
the cursor of the descriptor's object has moved. -/
def readdir (st : State) (fd : Nat) (name : CString) : Bool × CString × State :=
  match st.fd_list fd with
  | none => (false, name, st)
  | some curr_file =>
    match curr_file.inode with
    | none => (false, name, st)
    | some curr_inode =>
      if inode_is_subdir st curr_inode = false then (false, name, st)
      else
        let r := dir_readdir st curr_inode curr_file.pos
        let out := readdir_loop st curr_inode (readdir_fuel st curr_inode)
          r.1.isSome (r.1.getD name) r.2
        (out.1, out.2.1,
          { st with fd_list := fun k =>
              if k = fd then some { curr_file with pos := out.2.2 } else st.fd_list k })

/-- The conversion of an `int` to `bool` (`_Bool`) at a `return`: every value
other than zero becomes `true`. -/
def int_to_bool (v : Int) : Bool := decide (v ≠ 0)

/-- Modelled from the spec: `file_get_inode`. -/
def file_get_inode (f : file) : Option inode := f.inode

/-- System call `isdir` (lines 210-219).  The state is only read.  `none` stands for the call
`inode_is_subdir (NULL)` on an object without inode. -/
def isdir (st : State) (fd : Nat) : Option Bool :=
  match st.fd_list fd with
  | none => some (int_to_bool (-1))
  | some curr_file =>
    match file_get_inode curr_file with
    | none => none
    | some i => some (inode_is_subdir st i)

/-! ## Definitions used to state the properties -/

/-- Whether a name is one of the two pseudo-entries `.` and `..`. -/
def is_dot (name : CString) : Bool := decide (name = ['.'] ∨ name = ['.', '.'])

/-- What the spec asks of `readdir` (§4.4) on the records `es` from the cursor
`pos` on: the name of the first record that is in use and is neither `.` nor
`..`, with the cursor just past it; `none` when no such record is left. -/
def next_visible (es : List dir_entry) (pos : Nat) : Option (CString × Nat) :=
  match es with
  | [] => none
  | e :: rest =>
    if e.in_use = true ∧ is_dot e.name = false then some (e.name, pos + 1)
    else next_visible rest (pos + 1)

/-- A configuration: root directory in sector 1, names of at most 14 characters,
entry stores of 16 records, in-memory inodes above `0xc0000000`. -/
def sample_cfg : Config :=
  { ROOT_DIR_SECTOR := 1, NAME_MAX := 14, DIR_CREATE_CNST := 16, dir_max_entries := 16,
    inode_addr := fun s => 3221225472 + 64 * s }

/-- A freshly formatted disk of six sectors: the free map in sector 0, an empty
root directory in sector 1, four free sectors. -/
def sample_disk : List sector_data :=
  [sector_data.reserved, sector_data.directory (empty_store 16), sector_data.free,
   sector_data.free, sector_data.free, sector_data.free]

/-- A thread on `sample_disk` with no working directory set and no descriptor
open. -/
def sample_state : State :=
  { disk := sample_disk, next_dir := 0, open_dirs := [], curr_dir := none,
    fd_list := fun _ => none }

/-- A thread on `sample_disk` whose working directory is an open handle on the
root directory. -/
def sample_state_at_root : State :=
  { disk := sample_disk, next_dir := 1, open_dirs := [0],
    curr_dir := some { id := 0, inode := inode_open sample_cfg 1, pos := 0 },
    fd_list := fun _ => none }

/-- The bookkeeping of directory handles is consistent: the open handles were
issued before `next_dir`, none is listed twice, and the working-directory
handle, when set, is open. -/
def handles_wf (st : State) : Prop :=
  (∀ k ∈ st.open_dirs, k < st.next_dir) ∧ st.open_dirs.Nodup ∧
  (match st.curr_dir with
   | none => True
   | some cwd => cwd.id ∈ st.open_dirs)

/-- The sector the resolver's walk ends in, on the disk alone: each component is
looked up in the directory reached so far and must lead to a directory. -/
def walk_sector (disk : List sector_data) : List CString → block_sector_t → Option block_sector_t
  | [], s => some s
  | c :: cs, s =>
    match dir_entries disk s with
    | none => none
    | some es =>
      match lookup es c with
      | none => none
      | some t => if (dir_entries disk t).isSome then walk_sector disk cs t else none

/-- The sector of the working directory, the root when it is unset. -/
def cwd_sector (cfg : Config) (st : State) : block_sector_t :=
  match st.curr_dir with
  | some cwd => cwd.inode.sector
  | none => cfg.ROOT_DIR_SECTOR

/-- The sector a path is resolved from: the root for a path that starts with the
separator, the working directory otherwise. -/
def anchor_sector (cfg : Config) (st : State) (path : CString) : block_sector_t :=
  if path.head? = some '/' then cfg.ROOT_DIR_SECTOR else cwd_sector cfg st

/-- The sector a path resolves to, `none` when it does not resolve. -/
def resolve_sector (cfg : Config) (st : State) (path : CString) : Option block_sector_t :=
  walk_sector st.disk (split_path path) (anchor_sector cfg st path)

/-- The position of the last separator of a path. -/
def last_sep : CString → Option Nat
  | [] => none
  | c :: rest =>
    match last_sep rest with
    | some k => some (k + 1)
    | none => if c = '/' then some 0 else none

/-- The final component of a path: what follows its last separator, the whole
path when it has none. -/
def final_name (path : CString) : CString :=
  match last_sep path with
  | none => path
  | some k => path.drop (k + 1)

/-- The parent directory of a path as the spec words it (§4.2, step 3): the
working directory (the root when unset) for a path without separator, the root
when the last separator is the leading character, and otherwise what the part
of the path before the last separator resolves to. -/
def parent_sector (cfg : Config) (st : State) (path : CString) : Option block_sector_t :=
  match last_sep path with
  | none => some (cwd_sector cfg st)
  | some 0 => some cfg.ROOT_DIR_SECTOR
  | some (k + 1) => resolve_sector cfg st (path.take (k + 1))

/-- The root directory and the working directory, when set, are directories on
the disk. -/
def fs_wf (cfg : Config) (st : State) : Prop :=
  (dir_entries st.disk cfg.ROOT_DIR_SECTOR).isSome = true ∧
  (dir_entries st.disk (cwd_sector cfg st)).isSome = true

/-- The effect of `dir_add` on the disk: the entry (name, target) inserted into
the store of the directory at `sector`. -/
def add_entry (cfg : Config) (disk : List sector_data) (sector : block_sector_t)
    (name : CString) (target : block_sector_t) : Option (List sector_data) :=
  match dir_entries disk sector with
  | none => none
  | some es =>
    match insert cfg es name target with
    | none => none
    | some es1 => some (disk.set sector (sector_data.directory es1))

/-- The effect on the disk of the steps of `mkdir` that follow `dir_create`: the
entry for the new directory `n` goes into the parent `p`, then `.` and `..` go
into the new directory; the walk stops at the first insertion that fails. -/
def link_and_bootstrap (cfg : Config) (disk : List sector_data) (p : block_sector_t)
    (name : CString) (n : block_sector_t) : Bool × List sector_data :=
  match add_entry cfg disk p name n with
  | none => (false, disk)
  | some d1 =>
    match add_entry cfg d1 n ['.'] n with
    | none => (false, d1)
    | some d2 =>
      match add_entry cfg d2 n ['.', '.'] p with
      | none => (false, d2)
      | some d3 => (true, d3)

/-- The result of `mkdir` and the disk it leaves, computed on the disk alone. -/
def mkdir_disk (cfg : Config) (st : State) (path : CString) : Bool × List sector_data :=
  if path = [] then (false, st.disk)
  else if (resolve_sector cfg st path).isSome then (false, st.disk)
  else
    match parent_sector cfg st path with
    | none => (false, st.disk)
    | some p =>
      match first_free st.disk 0 with
      | none => (false, st.disk)
      | some n =>
        if cfg.DIR_CREATE_CNST ≤ cfg.dir_max_entries then
          link_and_bootstrap cfg
            (st.disk.set n (sector_data.directory (empty_store cfg.DIR_CREATE_CNST)))
            p (final_name path) n
        else (false, st.disk.set n sector_data.reserved)

/-- The steps of `mkdir` that follow `dir_create`, which the source repeats in its
three branches (lines 92-106, 108-122, 141-155): `open1` and `open2` stand for
how the branch obtains the parent handle for `dir_add` and for `dir_lookup`,
`pnum` for the inode number it stores under `..`. -/
def mkdir_tail (cfg : Config) (st : State) (open1 open2 : State → dir × State)
    (name : CString) (new_dir pnum : block_sector_t) : Bool × State :=
  match dir_add cfg (open1 st).2 (open1 st).1 name new_dir with
  | none => (false, (open1 st).2)
  | some st5 =>
    match dir_lookup cfg (open2 st5).2 (open2 st5).1 name with
    | none => (false, inode_close (open2 st5).2 none)
    | some i =>
      match dir_add cfg (dir_open (open2 st5).2 i).2 (dir_open (open2 st5).2 i).1 ['.'] new_dir with
      | none => (false, dir_close (dir_open (open2 st5).2 i).2 (some (dir_open (open2 st5).2 i).1))
      | some st6 =>
        match dir_add cfg st6 (dir_open (open2 st5).2 i).1 ['.', '.'] pnum with
        | none => (false, dir_close st6 (some (dir_open (open2 st5).2 i).1))
        | some st7 => (true, dir_close st7 (some (dir_open (open2 st5).2 i).1))

/-- The allocation steps of `mkdir`, which the source repeats in two branches
(lines 85-89, 136-140): `free_map_allocate`, then `dir_create`, then the rest of
the branch `k` on the new sector. -/
def mkdir_alloc (cfg : Config) (st : State) (k : block_sector_t → State → Bool × State) :
    Bool × State :=
  match free_map_allocate st with
  | none => (false, st)
  | some (new_dir, st3) =>
    match dir_create cfg st3 new_dir cfg.DIR_CREATE_CNST with
    | none => (false, st3)
    | some st4 => k new_dir st4

/-- The number of entries an entry store can still take: its records not in use
and the records it may still grow by. -/
def free_slots (cfg : Config) (es : List dir_entry) : Nat :=
  (es.filter (fun e => !e.in_use)).length + (cfg.dir_max_entries - es.length)

/-- The number of free sectors of a disk. -/
def free_count (disk : List sector_data) : Nat := disk.count sector_data.free

/-- A valid component name: not empty, without separator, no longer than
`NAME_MAX`, and neither `.` nor `..`. -/
def valid_name (cfg : Config) (x : CString) : Prop :=
  x ≠ [] ∧ '/' ∉ x ∧ strlen x ≤ cfg.NAME_MAX ∧ is_dot x = false

/-- On `disk`, the directory at `s` has an entry `nm` that leads to the
directory at `t`. -/
def child (disk : List sector_data) (s : block_sector_t) (nm : CString)
    (t : block_sector_t) : Prop :=
  ∃ es, dir_entries disk s = some es ∧ lookup es nm = some t ∧
    (dir_entries disk t).isSome = true

/-! ## The backward scan of `mkdir` -/

theorem mkdir_scan_nat (dir_ : CString) :
    ∀ (fuel k : Nat), k ≤ fuel →
      ∃ m : Nat, mkdir_scan dir_ fuel ((k : Int) - 1) = (m : Int) - 1 ∧ m ≤ k ∧
        (1 ≤ m → dir_[m - 1]? = some '/') ∧
        ∀ j, m ≤ j → j < k → dir_[j]? ≠ some '/' := by
  intro fuel
  induction fuel with
  | zero =>
    intro k hk
    have hk0 : k = 0 := by omega
    subst hk0
    exact ⟨0, by simp [mkdir_scan], le_refl _, by omega, by intro j _ h; omega⟩
  | succ f ih =>
    intro k hk
    cases k with
    | zero =>
      refine ⟨0, ?_, le_refl _, by omega, by intro j _ h; omega⟩
      simp [mkdir_scan]
    | succ k =>
      by_cases hc : dir_[k]? = some '/'
      · refine ⟨k + 1, ?_, le_refl _, ?_, by intro j h1 h2; omega⟩
        · have : ((k + 1 : Nat) : Int) - 1 = (k : Int) := by push_cast; ring
          rw [this]
          simp [mkdir_scan, hc]
        · intro _
          simpa using hc
      · obtain ⟨m, hm, hmk, hsep, hno⟩ := ih k (by omega)
        refine ⟨m, ?_, by omega, hsep, ?_⟩
        · have : ((k + 1 : Nat) : Int) - 1 = (k : Int) := by push_cast; ring
          rw [this]
          simp only [mkdir_scan]
          rw [if_pos]
          · exact hm
          · exact ⟨by omega, by simpa using hc⟩
        · intro j h1 h2
          by_cases hj : j = k
          · subst hj; exact hc
          · exact hno j h1 (by omega)

theorem mkdir_index_nat (path : CString) :
    ∃ n : Nat, mkdir_index path = (n : Int) ∧ n ≤ path.length ∧
      (1 ≤ n → path[n - 1]? = some '/') ∧
      ∀ j, n ≤ j → path[j]? ≠ some '/' := by
  obtain ⟨m, hm, hmk, hsep, hno⟩ := mkdir_scan_nat path (strlen path) (strlen path) (le_refl _)
  refine ⟨m, ?_, hmk, hsep, ?_⟩
  · unfold mkdir_index
    rw [hm]; ring
  · intro j h1
    by_cases hj : j < strlen path
    · exact hno j h1 hj
    · have : path.length ≤ j := by unfold strlen at hj; omega
      simp [List.getElem?_eq_none this]

theorem not_mem_drop_of_getElem (path : CString) (n : Nat)
    (h : ∀ j, n ≤ j → path[j]? ≠ some '/') : '/' ∉ path.drop n := by
  intro hmem
  obtain ⟨k, hk, hget⟩ := List.getElem_of_mem hmem
  have hk2 : k < (path.drop n).length := hk
  have : path[n + k]? = some '/' := by
    rw [← List.getElem?_drop]
    rw [List.getElem?_eq_getElem hk2, hget]
  exact h (n + k) (by omega) this

/-- C10: for a non-empty path the backward scan of `mkdir` ends (it has left the
loop within `strlen (dir)` iterations and more iterations change nothing) with
`index` one past the last separator, `0` without one; the final name
`dir + index` has no separator; `index` is `0` exactly when the path has no
separator and `1` exactly when its only separator is the leading character; and
for `index >= 2` the parent path copied by `strlcpy` is the first `index - 1`
characters, so the path is parent, separator, final name. -/
theorem mkdir_index_spec (path : CString) (hne : path ≠ []) :
    ∃ n : Nat, mkdir_index path = (n : Int) ∧ n ≤ strlen path ∧
      (∀ fuel, strlen path ≤ fuel →
        mkdir_scan path fuel ((strlen path : Int) - 1) + 1 = (n : Int)) ∧
      ¬ (((n : Int) - 1 ≥ 0) ∧ path[((n : Int) - 1).toNat]? ≠ some '/') ∧
      (1 ≤ n → path[n - 1]? = some '/') ∧
      '/' ∉ path.drop n ∧
      (n = 0 ↔ '/' ∉ path) ∧
      (n = 1 ↔ (path.head? = some '/' ∧ '/' ∉ path.tail)) ∧
      (2 ≤ n → strlcpy path n = path.take (n - 1) ∧
        path = strlcpy path n ++ '/' :: path.drop n) := by
  obtain ⟨n, hn, hlen, hsep, hno⟩ := mkdir_index_nat path
  have hdrop : '/' ∉ path.drop n := not_mem_drop_of_getElem path n hno
  have hsplit : 1 ≤ n → path = path.take (n - 1) ++ '/' :: path.drop n := by
    intro h1
    have hlt : n - 1 < path.length := by omega
    have hget : path[n - 1] = '/' := by
      have := hsep h1
      rw [List.getElem?_eq_getElem hlt] at this
      exact Option.some.inj this
    have h2 : path.drop (n - 1) = path[n - 1] :: path.drop (n - 1 + 1) :=
      List.drop_eq_getElem_cons hlt
    have h3 : n - 1 + 1 = n := by omega
    rw [h3, hget] at h2
    rw [← h2, List.take_append_drop]
  refine ⟨n, hn, hlen, ?_, ?_, hsep, hdrop, ?_, ?_, ?_⟩
  · intro fuel hfuel
    obtain ⟨m, hm, _, hsep2, hno2⟩ := mkdir_scan_nat path fuel (strlen path) hfuel
    rw [hm]
    have hmn : m = n := by
      by_contra hne2
      rcases Nat.lt_or_gt_of_ne hne2 with hlt | hgt
      · have h1 : 1 ≤ n := by omega
        have := hsep h1
        exact hno2 (n - 1) (by omega) (by show n - 1 < path.length; omega) this
      · have h1 : 1 ≤ m := by omega
        exact hno (m - 1) (by omega) (hsep2 h1)
    rw [hmn]; ring
  · rintro ⟨h0, hch⟩
    have h1 : 1 ≤ n := by omega
    have ht : ((n : Int) - 1).toNat = n - 1 := by omega
    rw [ht] at hch
    exact hch (hsep h1)
  · constructor
    · intro h0 hmem
      subst h0
      exact hdrop (by simpa using hmem)
    · intro hmem
      by_contra h0
      have h1 : 1 ≤ n := by omega
      have := hsep h1
      exact hmem (List.getElem?_mem this)
  · constructor
    · intro h1
      subst h1
      have h := hsplit (le_refl _)
      simp at h
      rw [h]
      refine ⟨by simp, ?_⟩
      simpa using hdrop
    · rintro ⟨hhead, htail⟩
      cases path with
      | nil => exact absurd rfl hne
      | cons c rest =>
        simp at hhead htail
        subst hhead
        have h1 : 1 ≤ n := by
          by_contra h0
          have h00 : n = 0 := by omega
          subst h00
          exact hdrop (by simp)
        by_contra hn1
        have h2 : 2 ≤ n := by omega
        have := hsep h1
        obtain ⟨k, hk⟩ : ∃ k, n - 1 = k + 1 := ⟨n - 2, by omega⟩
        rw [hk] at this
        simp at this
        exact htail (List.getElem?_mem this)
  · intro h2
    have h1 : 1 ≤ n := by omega
    have hs : strlcpy path n = path.take (n - 1) := by
      unfold strlcpy
      rw [if_neg (by omega)]
    exact ⟨hs, by rw [hs]; exact hsplit h1⟩

/-- Witness of C10 at the path `a/b`. -/
theorem mkdir_index_spec_witness :
    ∃ n : Nat, mkdir_index ['a', '/', 'b'] = (n : Int) ∧ n ≤ strlen ['a', '/', 'b'] ∧
      (∀ fuel, strlen ['a', '/', 'b'] ≤ fuel →
        mkdir_scan ['a', '/', 'b'] fuel ((strlen ['a', '/', 'b'] : Int) - 1) + 1 = (n : Int)) ∧
      ¬ (((n : Int) - 1 ≥ 0) ∧ (['a', '/', 'b'] : CString)[((n : Int) - 1).toNat]? ≠ some '/') ∧
      (1 ≤ n → (['a', '/', 'b'] : CString)[n - 1]? = some '/') ∧
      '/' ∉ (['a', '/', 'b'] : CString).drop n ∧
      (n = 0 ↔ '/' ∉ (['a', '/', 'b'] : CString)) ∧
      (n = 1 ↔ ((['a', '/', 'b'] : CString).head? = some '/' ∧ '/' ∉ (['a', '/', 'b'] : CString).tail)) ∧
      (2 ≤ n → strlcpy ['a', '/', 'b'] n = (['a', '/', 'b'] : CString).take (n - 1) ∧
        ['a', '/', 'b'] = strlcpy ['a', '/', 'b'] n ++ '/' :: (['a', '/', 'b'] : CString).drop n) :=
  mkdir_index_spec ['a', '/', 'b'] (by decide)

/-! ## `readdir` -/

theorem readdir_loop_false (st : State) (i : inode) (fuel : Nat) (name : CString) (pos : Nat) :
    readdir_loop st i fuel false name pos = (false, name, pos) := by
  cases fuel <;> simp [readdir_loop]

theorem strcmp_eq_zero (a b : CString) : strcmp a b = 0 ↔ a = b := by
  unfold strcmp
  split <;> simp_all

theorem readdir_loop_scan (st : State) (i : inode) (all : List dir_entry)
    (hall : dir_entries st.disk i.sector = some all) :
    ∀ (l : List dir_entry) (pos fuel : Nat) (name : CString),
      all.drop pos = l → l.length + 1 ≤ fuel →
      (∀ nm p, next_visible l pos = some (nm, p) →
        readdir_loop st i fuel (scan_next l pos).1.isSome
          ((scan_next l pos).1.getD name) (scan_next l pos).2 = (true, nm, p)) ∧
      (next_visible l pos = none →
        (readdir_loop st i fuel (scan_next l pos).1.isSome
          ((scan_next l pos).1.getD name) (scan_next l pos).2).1 = false ∧
        (readdir_loop st i fuel (scan_next l pos).1.isSome
          ((scan_next l pos).1.getD name) (scan_next l pos).2).2.2 = pos + l.length) := by
  intro l
  induction l with
  | nil =>
    intro pos fuel name _ _
    simp [scan_next, next_visible, readdir_loop_false]
  | cons e rest ih =>
    intro pos fuel name hdrop hfuel
    have hrest : all.drop (pos + 1) = rest := by
      have := congrArg List.tail hdrop
      simpa [List.tail_drop] using this
    by_cases hu : e.in_use = true
    · obtain ⟨f, rfl⟩ : ∃ f, fuel = f + 1 := ⟨fuel - 1, by simp at hfuel; omega⟩
      have hf : rest.length + 1 ≤ f := by simp at hfuel; omega
      by_cases hd : is_dot e.name = true
      · have hnv : next_visible (e :: rest) pos = next_visible rest (pos + 1) := by
          simp [next_visible, hd]
        have hdot : ¬ (strcmp e.name ['.'] ≠ 0 ∧ strcmp e.name ['.', '.'] ≠ 0) := by
          unfold is_dot at hd
          simp only [ne_eq, strcmp_eq_zero]
          have := of_decide_eq_true hd
          tauto
        have hloop : readdir_loop st i (f + 1) (scan_next (e :: rest) pos).1.isSome
            ((scan_next (e :: rest) pos).1.getD name) (scan_next (e :: rest) pos).2
            = readdir_loop st i f (scan_next rest (pos + 1)).1.isSome
              ((scan_next rest (pos + 1)).1.getD e.name) (scan_next rest (pos + 1)).2 := by
          simp only [scan_next, hu, if_true, Option.isSome_some, Option.getD_some]
          rw [readdir_loop]
          simp only [if_true]
          rw [if_neg hdot]
          simp only [dir_readdir, hall, hrest]
        rw [hloop, hnv]
        have := ih (pos + 1) f e.name hrest hf
        refine ⟨this.1, ?_⟩
        intro hn
        have h2 := this.2 hn
        refine ⟨h2.1, ?_⟩
        rw [h2.2]; simp; omega
      · have hd2 : is_dot e.name = false := by simpa using hd
        have hnv : next_visible (e :: rest) pos = some (e.name, pos + 1) := by
          simp [next_visible, hu, hd2]
        have hdot : strcmp e.name ['.'] ≠ 0 ∧ strcmp e.name ['.', '.'] ≠ 0 := by
          unfold is_dot at hd2
          simp only [ne_eq, strcmp_eq_zero]
          have := of_decide_eq_false hd2
          tauto
        have hloop : readdir_loop st i (f + 1) (scan_next (e :: rest) pos).1.isSome
            ((scan_next (e :: rest) pos).1.getD name) (scan_next (e :: rest) pos).2
            = (true, e.name, pos + 1) := by
          simp only [scan_next, hu, if_true, Option.isSome_some, Option.getD_some]
          rw [readdir_loop]
          simp only [if_true]
          rw [if_pos hdot]
        rw [hloop, hnv]
        constructor
        · intro nm p h
          simp at h
          rw [h.1, h.2]
        · intro h; simp at h
    · have hsc : scan_next (e :: rest) pos = scan_next rest (pos + 1) := by
        simp [scan_next, hu]
      have hnv : next_visible (e :: rest) pos = next_visible rest (pos + 1) := by
        simp [next_visible, hu]
      rw [hsc, hnv]
      have := ih (pos + 1) fuel name hrest (by simp at hfuel; omega)
      refine ⟨this.1, ?_⟩
      intro hn
      have h2 := this.2 hn
      refine ⟨h2.1, ?_⟩
      rw [h2.2]; simp; omega

theorem next_visible_not_dot :
    ∀ (l : List dir_entry) (pos : Nat) (nm : CString) (p : Nat),
      next_visible l pos = some (nm, p) → is_dot nm = false := by
  intro l
  induction l with
  | nil => intro pos nm p h; simp [next_visible] at h
  | cons e rest ih =>
    intro pos nm p h
    unfold next_visible at h
    split at h
    · rename_i hc
      simp at h
      rw [← h.1]; exact hc.2
    · exact ih _ _ _ h

theorem next_visible_none_of_dots :
    ∀ (l : List dir_entry) (pos : Nat),
      (∀ e ∈ l, e.in_use = true → is_dot e.name = true) → next_visible l pos = none := by
  intro l
  induction l with
  | nil => intro pos _; simp [next_visible]
  | cons e rest ih =>
    intro pos h
    unfold next_visible
    rw [if_neg]
    · exact ih _ (fun x hx => h x (List.mem_cons_of_mem _ hx))
    · rintro ⟨hu, hd⟩
      have := h e (List.mem_cons_self _ _) hu
      rw [hd] at this
      exact Bool.noConfusion this

theorem readdir_loop_stable (st : State) (i : inode) :
    ∀ (fuel : Nat) (c : Bool) (name : CString) (pos : Nat),
      ((readdir_loop st i fuel c name pos).1 = false ∨
        is_dot (readdir_loop st i fuel c name pos).2.1 = false) →
      ∀ extra, readdir_loop st i (fuel + extra) c name pos = readdir_loop st i fuel c name pos := by
  intro fuel
  induction fuel with
  | zero =>
    intro c name pos h extra
    cases extra with
    | zero => rfl
    | succ k =>
      simp only [readdir_loop] at h
      simp only [Nat.zero_add]
      cases c with
      | false => simp [readdir_loop]
      | true =>
        have hd : is_dot name = false := by simpa using h
        have hdot : strcmp name ['.'] ≠ 0 ∧ strcmp name ['.', '.'] ≠ 0 := by
          unfold is_dot at hd
          simp only [ne_eq, strcmp_eq_zero]
          have := of_decide_eq_false hd
          tauto
        simp only [readdir_loop, if_true, if_pos hdot]
  | succ f ih =>
    intro c name pos h extra
    have hadd : f + 1 + extra = (f + extra) + 1 := by omega
    rw [hadd]
    rw [readdir_loop, readdir_loop]
    rw [readdir_loop] at h
    by_cases hc : c = true
    · simp only [hc, if_true] at h ⊢
      by_cases hdot : strcmp name ['.'] ≠ 0 ∧ strcmp name ['.', '.'] ≠ 0
      · simp only [if_pos hdot]
      · simp only [if_neg hdot] at h ⊢
        exact ih _ _ _ h extra
    · simp [hc]

theorem readdir_on_directory (st : State) (fd : Nat) (name : CString) (f : file) (i : inode)
    (es : List dir_entry) (hf : st.fd_list fd = some f) (hi : f.inode = some i)
    (hes : dir_entries st.disk i.sector = some es) :
    (∀ nm p, next_visible (es.drop f.pos) f.pos = some (nm, p) →
      (readdir st fd name).1 = true ∧ (readdir st fd name).2.1 = nm ∧
      (readdir st fd name).2.2.fd_list fd = some { f with pos := p }) ∧
    (next_visible (es.drop f.pos) f.pos = none → (readdir st fd name).1 = false) := by
  have hsub : inode_is_subdir st i = true := by simp [inode_is_subdir, hes]
  have hfuel : (es.drop f.pos).length + 1 ≤ readdir_fuel st i := by
    simp [readdir_fuel, hes]
  have hscan := readdir_loop_scan st i es hes (es.drop f.pos) f.pos (readdir_fuel st i) name
    rfl hfuel
  have hrd : dir_readdir st i f.pos = scan_next (es.drop f.pos) f.pos := by
    simp [dir_readdir, hes]
  constructor
  · intro nm p hnv
    have := hscan.1 nm p hnv
    simp only [readdir, hf, hi, hsub, hrd, this]
    simp
  · intro hnv
    have := (hscan.2 hnv).1
    simp only [readdir, hf, hi, hsub, hrd]
    simpa using this

/-- C7: `readdir` returns true exactly when the descriptor is known, its inode is
flagged as a directory and the scan from the cursor still has a record in use
whose name is neither `.` nor `..`; the name returned is then the first such
one and the cursor is just past it.  It never yields `.` or `..`, its filter
loop ends within the iterations it is given (more iterations change nothing),
and on a directory whose records in use are only `.` and `..` it returns
false. -/
theorem readdir_spec (st : State) (fd : Nat) (name : CString) :
    ((readdir st fd name).1 = true ↔
      ∃ f i es, st.fd_list fd = some f ∧ f.inode = some i ∧ inode_is_subdir st i = true ∧
        dir_entries st.disk i.sector = some es ∧
        (next_visible (es.drop f.pos) f.pos).isSome = true) ∧
    (∀ f i es nm p, st.fd_list fd = some f → f.inode = some i →
        dir_entries st.disk i.sector = some es →
        next_visible (es.drop f.pos) f.pos = some (nm, p) →
        (readdir st fd name).1 = true ∧ (readdir st fd name).2.1 = nm ∧
        (readdir st fd name).2.2.fd_list fd = some { f with pos := p }) ∧
    ((readdir st fd name).1 = true → is_dot (readdir st fd name).2.1 = false) ∧
    (∀ f i, st.fd_list fd = some f → f.inode = some i → ∀ extra,
        readdir_loop st i (readdir_fuel st i + extra) (dir_readdir st i f.pos).1.isSome
          ((dir_readdir st i f.pos).1.getD name) (dir_readdir st i f.pos).2 =
        readdir_loop st i (readdir_fuel st i) (dir_readdir st i f.pos).1.isSome
          ((dir_readdir st i f.pos).1.getD name) (dir_readdir st i f.pos).2) ∧
    (∀ f i es, st.fd_list fd = some f → f.inode = some i →
        dir_entries st.disk i.sector = some es →
        (∀ e ∈ es, e.in_use = true → is_dot e.name = true) →
        (readdir st fd name).1 = false) := by
  have key : ∀ f i, st.fd_list fd = some f → f.inode = some i →
      (readdir st fd name).1 = true →
      ∃ es nm p, dir_entries st.disk i.sector = some es ∧
        next_visible (es.drop f.pos) f.pos = some (nm, p) := by
    intro f i hf hi hr
    cases hes : dir_entries st.disk i.sector with
    | none =>
      have hsub : inode_is_subdir st i = false := by simp [inode_is_subdir, hes]
      simp [readdir, hf, hi, hsub] at hr
    | some es =>
      cases hnv : next_visible (es.drop f.pos) f.pos with
      | none =>
        have := (readdir_on_directory st fd name f i es hf hi hes).2 hnv
        rw [this] at hr
        exact Bool.noConfusion hr
      | some r => exact ⟨es, r.1, r.2, rfl, hnv⟩
  refine ⟨⟨?_, ?_⟩, ?_, ?_, ?_, ?_⟩
  · intro hr
    cases hf : st.fd_list fd with
    | none => simp [readdir, hf] at hr
    | some f =>
      cases hi : f.inode with
      | none => simp [readdir, hf, hi] at hr
      | some i =>
        obtain ⟨es, nm, p, hes, hnv⟩ := key f i hf hi hr
        exact ⟨f, i, es, rfl, hi, by simp [inode_is_subdir, hes], hes, by simp [hnv]⟩
  · rintro ⟨f, i, es, hf, hi, _, hes, hnv⟩
    cases hnv2 : next_visible (es.drop f.pos) f.pos with
    | none => rw [hnv2] at hnv; simp at hnv
    | some r => exact ((readdir_on_directory st fd name f i es hf hi hes).1 r.1 r.2 hnv2).1
  · intro f i es nm p hf hi hes hnv
    exact (readdir_on_directory st fd name f i es hf hi hes).1 nm p hnv
  · intro hr
    cases hf : st.fd_list fd with
    | none => simp [readdir, hf] at hr
    | some f =>
      cases hi : f.inode with
      | none => simp [readdir, hf, hi] at hr
      | some i =>
        obtain ⟨es, nm, p, hes, hnv⟩ := key f i hf hi hr
        have := (readdir_on_directory st fd name f i es hf hi hes).1 nm p hnv
        rw [this.2.1]
        exact next_visible_not_dot _ _ _ _ hnv
  · intro f i hf hi extra
    apply readdir_loop_stable
    cases hes : dir_entries st.disk i.sector with
    | none =>
      left
      simp [dir_readdir, hes, readdir_loop_false]
    | some es =>
      have hfuel : (es.drop f.pos).length + 1 ≤ readdir_fuel st i := by
        simp [readdir_fuel, hes]
      have hscan := readdir_loop_scan st i es hes (es.drop f.pos) f.pos (readdir_fuel st i) name
        rfl hfuel
      have hrd : dir_readdir st i f.pos = scan_next (es.drop f.pos) f.pos := by
        simp [dir_readdir, hes]
      rw [hrd]
      cases hnv : next_visible (es.drop f.pos) f.pos with
      | none => left; exact (hscan.2 hnv).1
      | some r =>
        right
        rw [hscan.1 r.1 r.2 hnv]
        exact next_visible_not_dot _ _ _ _ hnv
  · intro f i es hf hi hes hdots
    apply (readdir_on_directory st fd name f i es hf hi hes).2
    apply next_visible_none_of_dots
    intro e he
    exact hdots e (List.mem_of_mem_drop he)

/-! ## `isdir` -/

/-- C8, the code at a failing input: on descriptor 3 of a thread with no open
descriptor, `isdir` returns true, because its `return -1` is converted to
`bool`. -/
theorem isdir_unknown_descriptor :
    sample_state.fd_list 3 = none ∧ isdir sample_state 3 = some true := by
  decide

/-! ## `chdir` -/

/-- C5, the code at a failing input: with the working directory an open handle
on the root directory, `chdir ("/")` returns true and installs a new handle,
because line 45 compares the inode pointer, not the inode number, with
`ROOT_DIR_SECTOR`. -/
theorem chdir_root_at_root :
    (sample_state_at_root.curr_dir.map (fun d => inode_get_inumber (dir_get_inode d))
        = some sample_cfg.ROOT_DIR_SECTOR) ∧
    (chdir sample_cfg sample_state_at_root (some ['/'])).1 = true ∧
    (chdir sample_cfg sample_state_at_root (some ['/'])).2.curr_dir
        = some { id := 1, inode := inode_open sample_cfg 1, pos := 0 } ∧
    (chdir sample_cfg sample_state_at_root (some ['/'])).2.open_dirs = [1] := by
  decide

/-! ## `mkdir` and the directory handles -/

/-- C9, the code at a failing input: `mkdir ("a")` on a thread without working
directory returns true and leaves open the two handles it got from
`dir_open_root ()`. -/
theorem mkdir_leaves_root_handles_open :
    sample_state.open_dirs = [] ∧
    (mkdir sample_cfg sample_state ['a']).1 = true ∧
    (mkdir sample_cfg sample_state ['a']).2.open_dirs = [2, 1] := by
  decide

/-! ## The path resolver -/

theorem resolve_walk_frame (cfg : Config) :
    ∀ (cs : List CString) (st : State) (cur : dir) (owned : Bool),
      (resolve_walk cfg cs st cur owned).2.disk = st.disk ∧
      (resolve_walk cfg cs st cur owned).2.curr_dir = st.curr_dir ∧
      (resolve_walk cfg cs st cur owned).2.fd_list = st.fd_list := by
  intro cs
  induction cs with
  | nil => intro st cur owned; simp [resolve_walk]
  | cons c cs ih =>
    intro st cur owned
    unfold resolve_walk
    cases hl : dir_lookup cfg st cur c with
    | none => cases owned <;> simp [dir_close]
    | some i =>
      by_cases hs : inode_is_subdir st i = true
      · simp only [hs, if_true]
        have := ih (if owned = true then dir_close (dir_open st i).2 (some cur) else (dir_open st i).2)
          (dir_open st i).1 true
        rw [this.1, this.2.1, this.2.2]
        cases owned <;> simp [dir_close, dir_open]
      · simp only [hs]
        cases owned <;> simp [dir_close]

theorem resolve_walk_open (cfg : Config) :
    ∀ (cs : List CString) (st : State) (cur : dir) (owned : Bool) (base : List Nat),
      st.open_dirs = (if owned = true then cur.id :: base else base) →
      ((resolve_walk cfg cs st cur owned).1 = none →
        (resolve_walk cfg cs st cur owned).2.open_dirs = base) ∧
      (∀ h, (resolve_walk cfg cs st cur owned).1 = some h →
        (cs = [] ∧ h = cur ∧ (resolve_walk cfg cs st cur owned).2 = st) ∨
        (cs ≠ [] ∧ (resolve_walk cfg cs st cur owned).2.open_dirs = h.id :: base ∧
          st.next_dir ≤ h.id)) := by
  intro cs
  induction cs with
  | nil =>
    intro st cur owned base _
    simp [resolve_walk]
  | cons c cs ih =>
    intro st cur owned base hopen
    unfold resolve_walk
    have hclose : (if owned = true then dir_close st (some cur) else st).open_dirs = base := by
      cases owned <;> simp_all [dir_close]
    cases hl : dir_lookup cfg st cur c with
    | none =>
      simp only
      exact ⟨fun _ => hclose, by intro h hh; simp at hh⟩
    | some i =>
      by_cases hs : inode_is_subdir st i = true
      · simp only [hs, if_true]
        have hopen2 : (if owned = true then dir_close (dir_open st i).2 (some cur)
            else (dir_open st i).2).open_dirs
            = (if true = true then (dir_open st i).1.id :: base else base) := by
          cases owned
          · simp_all [dir_open]
          · simp only [if_true, dir_open, dir_close] at hopen ⊢
            rw [hopen]
            by_cases hid : st.next_dir = cur.id
            · simp [hid]
            · rw [List.erase_cons_tail (by simpa using hid)]
              simp
        have hnext : (if owned = true then dir_close (dir_open st i).2 (some cur)
            else (dir_open st i).2).next_dir = st.next_dir + 1 := by
          cases owned <;> simp [dir_open, dir_close]
        have := ih _ (dir_open st i).1 true base hopen2
        refine ⟨this.1, ?_⟩
        intro h hh
        right
        refine ⟨by simp, ?_⟩
        rcases this.2 h hh with ⟨hnil, hcur, hst⟩ | ⟨_, ho, hn⟩
        · rw [hst, hopen2, hcur]
          simp [dir_open]
        · exact ⟨ho, by rw [hnext] at hn; omega⟩
      · simp only [hs]
        exact ⟨fun _ => hclose, by intro h hh; simp at hh⟩

theorem split_path_aux_ne_nil :
    ∀ (path cur : CString), cur ≠ [] → split_path_aux path cur ≠ [] := by
  intro path
  induction path with
  | nil => intro cur h; simp [split_path_aux, h]
  | cons c rest ih =>
    intro cur h
    unfold split_path_aux
    by_cases hc : c = '/'
    · simp [hc, h]
    · simp only [hc, if_false]
      exact ih _ (by simp)

theorem split_path_ne_nil (path : CString) (hne : path ≠ [])
    (hrel : path.head? ≠ some '/') : split_path path ≠ [] := by
  cases path with
  | nil => exact absurd rfl hne
  | cons c rest =>
    have hc : c ≠ '/' := by simpa using hrel
    unfold split_path split_path_aux
    simp only [hc, if_false]
    exact split_path_aux_ne_nil _ _ (by simp)

theorem handle_rel_abs_dir_frame (cfg : Config) (st : State) (path : CString) :
    (handle_rel_abs_dir cfg st path).2.disk = st.disk ∧
    (handle_rel_abs_dir cfg st path).2.curr_dir = st.curr_dir ∧
    (handle_rel_abs_dir cfg st path).2.fd_list = st.fd_list := by
  unfold handle_rel_abs_dir
  split
  · have := resolve_walk_frame cfg (split_path path) (dir_open_root cfg st).2
      (dir_open_root cfg st).1 true
    simpa [dir_open_root, dir_open] using this
  · split
    · exact resolve_walk_frame cfg _ _ _ _
    · have := resolve_walk_frame cfg (split_path path) (dir_open_root cfg st).2
        (dir_open_root cfg st).1 true
      simpa [dir_open_root, dir_open] using this

theorem handle_rel_abs_dir_open (cfg : Config) (st : State) (path : CString)
    (hne : path ≠ []) :
    ((handle_rel_abs_dir cfg st path).1 = none →
      (handle_rel_abs_dir cfg st path).2.open_dirs = st.open_dirs) ∧
    (∀ h, (handle_rel_abs_dir cfg st path).1 = some h →
      (handle_rel_abs_dir cfg st path).2.open_dirs = h.id :: st.open_dirs ∧
      st.next_dir ≤ h.id) := by
  have hroot : ((resolve_walk cfg (split_path path) (dir_open_root cfg st).2
        (dir_open_root cfg st).1 true).1 = none →
      (resolve_walk cfg (split_path path) (dir_open_root cfg st).2
        (dir_open_root cfg st).1 true).2.open_dirs = st.open_dirs) ∧
    (∀ h, (resolve_walk cfg (split_path path) (dir_open_root cfg st).2
        (dir_open_root cfg st).1 true).1 = some h →
      (resolve_walk cfg (split_path path) (dir_open_root cfg st).2
        (dir_open_root cfg st).1 true).2.open_dirs = h.id :: st.open_dirs ∧
      st.next_dir ≤ h.id) := by
    have := resolve_walk_open cfg (split_path path) (dir_open_root cfg st).2
      (dir_open_root cfg st).1 true st.open_dirs (by simp [dir_open_root, dir_open])
    refine ⟨this.1, ?_⟩
    intro h hh
    rcases this.2 h hh with ⟨_, hcur, hst⟩ | ⟨_, ho, hn⟩
    · rw [hst, hcur]
      simp [dir_open_root, dir_open]
    · exact ⟨ho, by simp [dir_open_root, dir_open] at hn; omega⟩
  unfold handle_rel_abs_dir
  split
  · exact hroot
  · rename_i hrel
    split
    · rename_i cwd hcwd
      have := resolve_walk_open cfg (split_path path) st cwd false st.open_dirs (by simp)
      refine ⟨this.1, ?_⟩
      intro h hh
      rcases this.2 h hh with ⟨hnil, _, _⟩ | ⟨_, ho, hn⟩
      · exact absurd hnil (split_path_ne_nil path hne hrel)
      · exact ⟨ho, hn⟩
    · exact hroot

theorem chdir_effect (cfg : Config) (st : State) (dir_ : Option CString)
    (hwf : handles_wf st) :
    ((chdir cfg st dir_).1 = true →
      ∃ path h, dir_ = some path ∧ (handle_rel_abs_dir cfg st path).1 = some h ∧
        (chdir cfg st dir_).2.curr_dir = some h ∧
        h.id ∈ (chdir cfg st dir_).2.open_dirs ∧
        (∀ old, st.curr_dir = some old → old.id ∉ (chdir cfg st dir_).2.open_dirs) ∧
        (chdir cfg st dir_).2.open_dirs =
          h.id :: (match st.curr_dir with
                   | none => st.open_dirs
                   | some old => st.open_dirs.erase old.id)) ∧
    ((chdir cfg st dir_).1 = false →
      (chdir cfg st dir_).2.curr_dir = st.curr_dir ∧
      (chdir cfg st dir_).2.open_dirs = st.open_dirs ∧
      (chdir cfg st dir_).2.disk = st.disk) ∧
    ((dir_ = none ∨ dir_ = some [] ∨
        ∃ path, dir_ = some path ∧ (handle_rel_abs_dir cfg st path).1 = none) →
      (chdir cfg st dir_).1 = false) := by
  obtain ⟨hlt, hnodup, hcwd⟩ := hwf
  cases dir_ with
  | none => simp [chdir]
  | some path =>
    by_cases hlen : strlen path = 0
    · have hp : path = [] := by simpa [strlen] using hlen
      have hch : chdir cfg st (some path) = (false, st) := by
        simp only [chdir]
        exact if_pos hlen
      rw [hch]
      simp [hp]
    · have hne : path ≠ [] := by
        intro h; apply hlen; simp [strlen, h]
      by_cases hg : (match st.curr_dir with
             | none => true
             | some cwd => decide ((dir_get_inode cwd).addr = cfg.ROOT_DIR_SECTOR)) = true
          ∧ (strcmp path ['/'] = 0 ∨ strcmp path ['.', '.'] = 0 ∨ strcmp path ['.'] = 0)
      · have hch : chdir cfg st (some path) = (false, st) := by
          simp only [chdir, hlen, if_false]
          rw [if_pos hg]
        rw [hch]
        simp
      · have hfr := handle_rel_abs_dir_frame cfg st path
        have hop := handle_rel_abs_dir_open cfg st path hne
        cases hr : handle_rel_abs_dir cfg st path with
        | mk res st1 =>
          rw [hr] at hfr hop
          simp only at hfr hop
          cases res with
          | none =>
            have hch : chdir cfg st (some path) = (false, st1) := by
              simp only [chdir, hlen, if_false]
              rw [if_neg hg, hr]
            rw [hch]
            simp [hfr.1, hfr.2.1, hop.1 rfl]
          | some h =>
            have hch : chdir cfg st (some path)
                = (true, { dir_close st1 st1.curr_dir with curr_dir := some h }) := by
              simp only [chdir, hlen, if_false]
              rw [if_neg hg, hr]
            rw [hch]
            obtain ⟨ho, hn⟩ := hop.2 h rfl
            have hfresh : h.id ∉ st.open_dirs := by
              intro hm
              have := hlt _ hm
              omega
            refine ⟨fun _ => ⟨path, h, rfl, by rw [hr], rfl, ?_, ?_, ?_⟩,
              fun hf => absurd hf (by simp), ?_⟩
            · rw [hfr.2.1]
              cases hc : st.curr_dir with
              | none => simp [dir_close, ho]
              | some old =>
                rw [hc] at hcwd
                simp only at hcwd
                have hneq : h.id ≠ old.id := by
                  intro he; rw [he] at hfresh; exact hfresh hcwd
                simp only [dir_close, ho]
                rw [List.erase_cons_tail (by simpa using hneq)]
                simp
            · intro old hold
              rw [hfr.2.1, hold]
              rw [hold] at hcwd
              simp only at hcwd
              have hneq : h.id ≠ old.id := by
                intro he; rw [he] at hfresh; exact hfresh hcwd
              simp only [dir_close, ho]
              rw [List.erase_cons_tail (by simpa using hneq)]
              intro hm
              rcases List.mem_cons.1 hm with h1 | h2
              · exact hneq h1.symm
              · exact (List.Nodup.not_mem_erase hnodup) h2
            · rw [hfr.2.1]
              cases hc : st.curr_dir with
              | none => simp [dir_close, ho]
              | some old =>
                rw [hc] at hcwd
                simp only at hcwd
                have hneq : h.id ≠ old.id := by
                  intro he; rw [he] at hfresh; exact hfresh hcwd
                simp only [dir_close, ho]
                rw [List.erase_cons_tail (by simpa using hneq)]
            · intro hcontra
              rcases hcontra with h1 | h1 | ⟨p2, hp2, hnone⟩
              · exact Option.noConfusion h1
              · exact absurd (Option.some.inj h1) hne
              · have hpp : path = p2 := Option.some.inj hp2
                rw [← hpp, hr] at hnone
                exact Option.noConfusion hnone

/-- C6: on a consistent handle table, if `chdir` returns true the
working-directory slot holds the handle the resolver returned for the path,
that handle is open and the previous one has been closed; if it returns false
the slot, the open handles and the disk are as before, so the previous handle
is still installed and open; and it returns false on a null path, an empty path
and a path that does not resolve. -/
theorem chdir_spec (cfg : Config) (st : State) (dir_ : Option CString)
    (hwf : handles_wf st) :
    ((chdir cfg st dir_).1 = true →
      ∃ path h, dir_ = some path ∧ (handle_rel_abs_dir cfg st path).1 = some h ∧
        (chdir cfg st dir_).2.curr_dir = some h ∧
        h.id ∈ (chdir cfg st dir_).2.open_dirs ∧
        (∀ old, st.curr_dir = some old → old.id ∉ (chdir cfg st dir_).2.open_dirs) ∧
        (chdir cfg st dir_).2.open_dirs =
          h.id :: (match st.curr_dir with
                   | none => st.open_dirs
                   | some old => st.open_dirs.erase old.id)) ∧
    ((chdir cfg st dir_).1 = false →
      (chdir cfg st dir_).2.curr_dir = st.curr_dir ∧
      (chdir cfg st dir_).2.open_dirs = st.open_dirs ∧
      (chdir cfg st dir_).2.disk = st.disk ∧
      (∀ old, st.curr_dir = some old → old.id ∈ (chdir cfg st dir_).2.open_dirs)) ∧
    ((dir_ = none ∨ dir_ = some [] ∨
        ∃ path, dir_ = some path ∧ (handle_rel_abs_dir cfg st path).1 = none) →
      (chdir cfg st dir_).1 = false) := by
  obtain ⟨h1, h2, h3⟩ := chdir_effect cfg st dir_ hwf
  refine ⟨h1, ?_, h3⟩
  intro hf
  obtain ⟨e1, e2, e3⟩ := h2 hf
  refine ⟨e1, e2, e3, ?_⟩
  intro old hold
  rw [e2]
  have := hwf.2.2
  rw [hold] at this
  exact this

/-- Witness of C6: `chdir ("/")` on a thread whose working directory is an open
handle on the root directory. -/
theorem chdir_spec_witness :
    handles_wf sample_state_at_root ∧
    (((chdir sample_cfg sample_state_at_root (some ['/'])).1 = true →
      ∃ path h, some ['/'] = some path ∧
        (handle_rel_abs_dir sample_cfg sample_state_at_root path).1 = some h ∧
        (chdir sample_cfg sample_state_at_root (some ['/'])).2.curr_dir = some h ∧
        h.id ∈ (chdir sample_cfg sample_state_at_root (some ['/'])).2.open_dirs ∧
        (∀ old, sample_state_at_root.curr_dir = some old →
          old.id ∉ (chdir sample_cfg sample_state_at_root (some ['/'])).2.open_dirs) ∧
        (chdir sample_cfg sample_state_at_root (some ['/'])).2.open_dirs =
          h.id :: (match sample_state_at_root.curr_dir with
                   | none => sample_state_at_root.open_dirs
                   | some old => sample_state_at_root.open_dirs.erase old.id)) ∧
    ((chdir sample_cfg sample_state_at_root (some ['/'])).1 = false →
      (chdir sample_cfg sample_state_at_root (some ['/'])).2.curr_dir
        = sample_state_at_root.curr_dir ∧
      (chdir sample_cfg sample_state_at_root (some ['/'])).2.open_dirs
        = sample_state_at_root.open_dirs ∧
      (chdir sample_cfg sample_state_at_root (some ['/'])).2.disk = sample_state_at_root.disk ∧
      (∀ old, sample_state_at_root.curr_dir = some old →
        old.id ∈ (chdir sample_cfg sample_state_at_root (some ['/'])).2.open_dirs)) ∧
    (((some ['/'] : Option CString) = none ∨ (some ['/'] : Option CString) = some [] ∨
        ∃ path, some ['/'] = some path ∧
          (handle_rel_abs_dir sample_cfg sample_state_at_root path).1 = none) →
      (chdir sample_cfg sample_state_at_root (some ['/'])).1 = false)) :=
  have hwf : handles_wf sample_state_at_root :=
    ⟨by decide, by decide, by simp [sample_state_at_root]⟩
  ⟨hwf, chdir_spec sample_cfg sample_state_at_root (some ['/']) hwf⟩

/-! ## Entry stores -/

theorem lookup_append (es : List dir_entry) (e : dir_entry) (nm : CString) :
    lookup (es ++ [e]) nm = (lookup es nm).orElse (fun _ => lookup [e] nm) := by
  induction es with
  | nil => simp [lookup]
  | cons x rest ih =>
    simp only [List.cons_append, lookup]
    split
    · simp
    · exact ih

theorem fill_slot_lookup_self (e : dir_entry) (he : e.in_use = true) :
    ∀ (es es1 : List dir_entry), fill_slot es e = some es1 → lookup es e.name = none →
      lookup es1 e.name = some e.inode_sector := by
  intro es
  induction es with
  | nil => intro es1 h; simp [fill_slot] at h
  | cons x rest ih =>
    intro es1 h hl
    unfold fill_slot at h
    unfold lookup at hl
    by_cases hx : x.in_use = true
    · simp only [hx, if_true] at h
      cases hf : fill_slot rest e with
      | none => rw [hf] at h; simp at h
      | some r =>
        rw [hf] at h
        simp at h
        subst h
        by_cases hn : x.name = e.name
        · simp [hx, hn] at hl
        · simp only [hx, hn, and_false, if_false, true_and] at hl
          simp only [lookup, hx, hn, and_false, if_false]
          exact ih r hf hl
    · simp only [hx] at h
      simp at h
      subst h
      simp [lookup, he]

theorem fill_slot_lookup_other (e : dir_entry) (nm : CString) (hne : nm ≠ e.name) :
    ∀ (es es1 : List dir_entry), fill_slot es e = some es1 → lookup es1 nm = lookup es nm := by
  intro es
  induction es with
  | nil => intro es1 h; simp [fill_slot] at h
  | cons x rest ih =>
    intro es1 h
    unfold fill_slot at h
    by_cases hx : x.in_use = true
    · simp only [hx, if_true] at h
      cases hf : fill_slot rest e with
      | none => rw [hf] at h; simp at h
      | some r =>
        rw [hf] at h
        simp at h
        subst h
        simp only [lookup]
        rw [ih r hf]
    · simp only [hx] at h
      simp at h
      subst h
      have hne2 : ¬ e.name = nm := fun h => hne h.symm
      simp [lookup, hx, hne2]

theorem insert_some (cfg : Config) (es es1 : List dir_entry) (name : CString)
    (s : block_sector_t) (h : insert cfg es name s = some es1) :
    lookup es name = none ∧ name ≠ [] ∧ strlen name ≤ cfg.NAME_MAX ∧
    lookup es1 name = some s ∧ ∀ nm, nm ≠ name → lookup es1 nm = lookup es nm := by
  unfold insert at h
  by_cases h1 : name = [] ∨ strlen name > cfg.NAME_MAX
  · rw [if_pos h1] at h; exact Option.noConfusion h
  · rw [if_neg h1] at h
    by_cases h2 : (lookup es name).isSome = true
    · rw [if_pos h2] at h; exact Option.noConfusion h
    · rw [if_neg h2] at h
      have hl : lookup es name = none := by simpa using h2
      have hn : name ≠ [] := fun hh => h1 (Or.inl hh)
      have hm : strlen name ≤ cfg.NAME_MAX := by
        by_contra hh; exact h1 (Or.inr (by omega))
      refine ⟨hl, hn, hm, ?_⟩
      simp only at h
      cases hf : fill_slot es { inode_sector := s, name := name, in_use := true } with
      | some r =>
        rw [hf] at h
        simp only [Option.some.injEq] at h
        subst h
        exact ⟨fill_slot_lookup_self _ rfl es r hf hl,
          fun nm hnm => fill_slot_lookup_other _ nm hnm es r hf⟩
      | none =>
        rw [hf] at h
        simp only at h
        by_cases hc : es.length < cfg.dir_max_entries
        · rw [if_pos hc] at h
          simp only [Option.some.injEq] at h
          subst h
          constructor
          · rw [lookup_append, hl]; simp [lookup]
          · intro nm hnm
            rw [lookup_append]
            have hne2 : ¬ name = nm := fun h => hnm h.symm
            simp [lookup, hne2]
        · rw [if_neg hc] at h; exact Option.noConfusion h

/-! ## `mkdir` on the disk -/

theorem mkdir_unfold (cfg : Config) (st : State) (dir_ : CString) :
    mkdir cfg st dir_ =
      if strlen dir_ = 0 then (false, st)
      else
        match handle_rel_abs_dir cfg st dir_ with
        | (some target, st1) => (false, dir_close st1 (some target))
        | (none, st1) =>
          if mkdir_index dir_ = 1 ∨ mkdir_index dir_ = 0 then
            mkdir_alloc cfg st1 (fun new_dir st4 =>
              match decide (mkdir_index dir_ = 0), st4.curr_dir with
              | true, some cwd =>
                mkdir_tail cfg st4 (fun s => (cwd, s)) (fun s => (cwd, s))
                  (if mkdir_index dir_ = 1 then dir_.drop 1 else dir_) new_dir
                  cwd.inode.sector
              | _, _ =>
                mkdir_tail cfg st4 (dir_open_root cfg) (dir_open_root cfg)
                  (if mkdir_index dir_ = 1 then dir_.drop 1 else dir_) new_dir
                  cfg.ROOT_DIR_SECTOR)
          else
            match handle_rel_abs_dir cfg st1 (strlcpy dir_ (mkdir_index dir_).toNat) with
            | (none, st3) => (false, st3)
            | (some target, st3) =>
              mkdir_alloc cfg st3 (fun new_dir st5 =>
                mkdir_tail cfg st5 (fun s => (target, s)) (fun s => (target, s))
                  (dir_.drop (mkdir_index dir_).toNat) new_dir target.inode.sector) := by
  rfl

theorem dir_entries_lt (disk : List sector_data) (s : block_sector_t) (es : List dir_entry)
    (h : dir_entries disk s = some es) : s < disk.length := by
  unfold dir_entries at h
  by_contra hlt
  have : disk.get? s = none := by
    rw [List.get?_eq_none]; exact Nat.le_of_not_lt hlt
  rw [this] at h
  exact Option.noConfusion h

theorem dir_entries_set_ne (disk : List sector_data) (s q : block_sector_t) (x : sector_data)
    (h : q ≠ s) : dir_entries (disk.set s x) q = dir_entries disk q := by
  unfold dir_entries
  simp only [List.get?_eq_getElem?]
  rw [List.getElem?_set_ne (fun hh => h hh.symm)]

theorem dir_entries_set_self (disk : List sector_data) (s : block_sector_t)
    (es : List dir_entry) (h : s < disk.length) :
    dir_entries (disk.set s (sector_data.directory es)) s = some es := by
  unfold dir_entries
  simp only [List.get?_eq_getElem?]
  rw [List.getElem?_set_self h]

theorem add_entry_some (cfg : Config) (disk disk1 : List sector_data) (p : block_sector_t)
    (name : CString) (t : block_sector_t) (h : add_entry cfg disk p name t = some disk1) :
    ∃ es es1, dir_entries disk p = some es ∧ insert cfg es name t = some es1 ∧
      disk1 = disk.set p (sector_data.directory es1) ∧
      dir_entries disk1 p = some es1 ∧
      (∀ q, q ≠ p → dir_entries disk1 q = dir_entries disk q) ∧
      disk1.length = disk.length := by
  unfold add_entry at h
  cases he : dir_entries disk p with
  | none => rw [he] at h; exact Option.noConfusion h
  | some es =>
    rw [he] at h
    simp only at h
    cases hi : insert cfg es name t with
    | none => rw [hi] at h; exact Option.noConfusion h
    | some es1 =>
      rw [hi] at h
      simp only [Option.some.injEq] at h
      subst h
      exact ⟨es, es1, rfl, hi, rfl, dir_entries_set_self _ _ _ (dir_entries_lt _ _ _ he),
        fun q hq => dir_entries_set_ne _ _ _ _ hq, by simp⟩

theorem dir_add_eq (cfg : Config) (st : State) (d : dir) (name : CString)
    (t : block_sector_t) :
    dir_add cfg st d name t =
      (add_entry cfg st.disk d.inode.sector name t).map (fun d1 => { st with disk := d1 }) := by
  unfold dir_add add_entry
  cases dir_entries st.disk d.inode.sector with
  | none => rfl
  | some es =>
    simp only
    cases insert cfg es name t <;> rfl

theorem mkdir_tail_disk (cfg : Config) (st : State) (open1 open2 : State → dir × State)
    (name : CString) (n p : block_sector_t)
    (h1 : ∀ s, (open1 s).2.disk = s.disk ∧ (open1 s).2.curr_dir = s.curr_dir ∧
      (open1 s).1.inode.sector = p)
    (h2 : ∀ s, (open2 s).2.disk = s.disk ∧ (open2 s).2.curr_dir = s.curr_dir ∧
      (open2 s).1.inode.sector = p) :
    (mkdir_tail cfg st open1 open2 name n p).1 = (link_and_bootstrap cfg st.disk p name n).1 ∧
    (mkdir_tail cfg st open1 open2 name n p).2.disk = (link_and_bootstrap cfg st.disk p name n).2 ∧
    (mkdir_tail cfg st open1 open2 name n p).2.curr_dir = st.curr_dir := by
  unfold mkdir_tail link_and_bootstrap
  rw [dir_add_eq, (h1 st).1, (h1 st).2.2]
  cases ha : add_entry cfg st.disk p name n with
  | none => simp [(h1 st).1, (h1 st).2.1]
  | some d1 =>
    simp only [Option.map_some']
    obtain ⟨es, es1, _, hins, _, hd1, _, _⟩ := add_entry_some cfg _ _ _ _ _ ha
    have hlk : lookup es1 name = some n := (insert_some cfg es es1 name n hins).2.2.2.1
    have hl : dir_lookup cfg (open2 { (open1 st).2 with disk := d1 }).2
        (open2 { (open1 st).2 with disk := d1 }).1 name = some (inode_open cfg n) := by
      unfold dir_lookup
      rw [(h2 _).1, (h2 _).2.2]
      simp [hd1, hlk]
    rw [hl]
    simp only
    rw [dir_add_eq]
    have hdisk : (dir_open (open2 { (open1 st).2 with disk := d1 }).2 (inode_open cfg n)).2.disk
        = d1 := by
      simp [dir_open, (h2 _).1]
    have hsec : (dir_open (open2 { (open1 st).2 with disk := d1 }).2
        (inode_open cfg n)).1.inode.sector = n := by
      simp [dir_open, inode_open]
    have hcur : (dir_open (open2 { (open1 st).2 with disk := d1 }).2
        (inode_open cfg n)).2.curr_dir = st.curr_dir := by
      simp [dir_open, (h2 _).2.1, (h1 _).2.1]
    rw [hdisk, hsec]
    cases hb : add_entry cfg d1 n ['.'] n with
    | none => simp [dir_close, hdisk, hcur]
    | some d2 =>
      simp only [Option.map_some']
      rw [dir_add_eq]
      simp only [hsec]
      cases hc : add_entry cfg d2 n ['.', '.'] p with
      | none => simp [dir_close, hcur]
      | some d3 => simp [dir_close, hcur]

theorem resolve_walk_sector (cfg : Config) :
    ∀ (cs : List CString) (st : State) (cur : dir) (owned : Bool),
      (resolve_walk cfg cs st cur owned).1.map (fun h => h.inode.sector)
        = walk_sector st.disk cs cur.inode.sector := by
  intro cs
  induction cs with
  | nil => intro st cur owned; simp [resolve_walk, walk_sector]
  | cons c cs ih =>
    intro st cur owned
    unfold resolve_walk walk_sector dir_lookup
    cases he : dir_entries st.disk cur.inode.sector with
    | none => simp
    | some es =>
      simp only
      cases hl : lookup es c with
      | none => simp
      | some t =>
        simp only [Option.map_some']
        have hsub : inode_is_subdir st (inode_open cfg t) = (dir_entries st.disk t).isSome := by
          simp [inode_is_subdir, inode_open]
        rw [hsub]
        by_cases hd : (dir_entries st.disk t).isSome = true
        · simp only [hd, if_true]
          rw [ih]
          have h1 : (if owned = true then dir_close (dir_open st (inode_open cfg t)).2 (some cur)
              else (dir_open st (inode_open cfg t)).2).disk = st.disk := by
            cases owned <;> simp [dir_close, dir_open]
          rw [h1]
          simp [dir_open, inode_open]
        · simp [hd]

theorem handle_rel_abs_dir_sector (cfg : Config) (st : State) (path : CString) :
    (handle_rel_abs_dir cfg st path).1.map (fun h => h.inode.sector)
      = resolve_sector cfg st path := by
  unfold handle_rel_abs_dir resolve_sector anchor_sector cwd_sector
  by_cases hh : path.head? = some '/'
  · simp only [hh, if_true]
    rw [resolve_walk_sector]
    simp [dir_open_root, dir_open, inode_open]
  · simp only [hh, if_false]
    cases hc : st.curr_dir with
    | none =>
      simp only
      rw [resolve_walk_sector]
      simp [dir_open_root, dir_open, inode_open]
    | some cwd =>
      simp only
      rw [resolve_walk_sector]

theorem resolve_sector_congr (cfg : Config) (st st1 : State) (path : CString)
    (hd : st1.disk = st.disk) (hc : st1.curr_dir = st.curr_dir) :
    resolve_sector cfg st1 path = resolve_sector cfg st path := by
  unfold resolve_sector anchor_sector cwd_sector
  rw [hd, hc]

theorem last_sep_spec :
    ∀ (path : CString),
      (last_sep path = none → '/' ∉ path) ∧
      (∀ k, last_sep path = some k →
        path[k]? = some '/' ∧ ∀ j, k < j → path[j]? ≠ some '/') := by
  intro path
  induction path with
  | nil => simp [last_sep]
  | cons c rest ih =>
    unfold last_sep
    cases hl : last_sep rest with
    | some k =>
      simp only
      refine ⟨by intro h; exact Option.noConfusion h, ?_⟩
      intro k2 hk2
      simp only [Option.some.injEq] at hk2
      subst hk2
      have := ih.2 k hl
      refine ⟨by simpa using this.1, ?_⟩
      intro j hj
      obtain ⟨j2, rfl⟩ : ∃ j2, j = j2 + 1 := ⟨j - 1, by omega⟩
      simpa using this.2 j2 (by omega)
    | none =>
      simp only
      have hno := ih.1 hl
      by_cases hc : c = '/'
      · simp only [hc, if_true]
        refine ⟨by intro h; exact Option.noConfusion h, ?_⟩
        intro k2 hk2
        simp only [Option.some.injEq] at hk2
        subst hk2
        refine ⟨by simp, ?_⟩
        intro j hj
        obtain ⟨j2, rfl⟩ : ∃ j2, j = j2 + 1 := ⟨j - 1, by omega⟩
        intro hget
        have : rest[j2]? = some '/' := by simpa using hget
        exact hno (List.getElem?_mem this)
      · simp only [hc, if_false]
        refine ⟨?_, by intro k2 hk2; exact Option.noConfusion hk2⟩
        intro _ hmem
        rcases List.mem_cons.1 hmem with h1 | h1
        · exact hc h1.symm
        · exact hno h1

theorem mkdir_index_last_sep (path : CString) :
    mkdir_index path = (match last_sep path with
                        | none => (0 : Int)
                        | some k => ((k + 1 : Nat) : Int)) := by
  obtain ⟨n, hn, _, hsep, hno⟩ := mkdir_index_nat path
  rw [hn]
  have hs := last_sep_spec path
  cases hl : last_sep path with
  | none =>
    simp only
    have hmem := hs.1 hl
    by_contra hne
    have h1 : 1 ≤ n := by
      by_contra h0
      apply hne
      have : n = 0 := by omega
      rw [this]; rfl
    exact hmem (List.getElem?_mem (hsep h1))
  | some k =>
    simp only
    obtain ⟨hk, hafter⟩ := hs.2 k hl
    have h1 : k + 1 ≤ n := by
      by_contra hlt
      exact hno k (by omega) hk
    have h2 : n ≤ k + 1 := by
      by_contra hgt
      exact hafter (n - 1) (by omega) (hsep (by omega))
    have : n = k + 1 := by omega
    rw [this]

theorem first_free_spec :
    ∀ (disk : List sector_data) (base n : Nat), first_free disk base = some n →
      base ≤ n ∧ n - base < disk.length ∧ disk[n - base]? = some sector_data.free := by
  intro disk
  induction disk with
  | nil => intro base n h; simp [first_free] at h
  | cons x rest ih =>
    intro base n h
    unfold first_free at h
    by_cases hx : x = sector_data.free
    · simp only [hx, if_true, Option.some.injEq] at h
      subst h
      simp [hx]
    · simp only [hx, if_false] at h
      obtain ⟨h1, h2, h3⟩ := ih (base + 1) n h
      refine ⟨by omega, by simp; omega, ?_⟩
      have : n - base = (n - (base + 1)) + 1 := by omega
      rw [this]
      simpa using h3

theorem first_free_zero (disk : List sector_data) (n : Nat) (h : first_free disk 0 = some n) :
    n < disk.length ∧ disk[n]? = some sector_data.free ∧ dir_entries disk n = none := by
  obtain ⟨_, h2, h3⟩ := first_free_spec disk 0 n h
  simp only [Nat.sub_zero] at h2 h3
  refine ⟨h2, h3, ?_⟩
  unfold dir_entries
  simp only [List.get?_eq_getElem?]
  rw [h3]

theorem mkdir_alloc_disk (cfg : Config) (st1 : State)
    (k : block_sector_t → State → Bool × State) (p : block_sector_t) (name : CString)
    (hk : ∀ n st4, st4.curr_dir = st1.curr_dir →
      (k n st4).1 = (link_and_bootstrap cfg st4.disk p name n).1 ∧
      (k n st4).2.disk = (link_and_bootstrap cfg st4.disk p name n).2 ∧
      (k n st4).2.curr_dir = st1.curr_dir) :
    (mkdir_alloc cfg st1 k).1 =
      (match first_free st1.disk 0 with
       | none => (false, st1.disk)
       | some n =>
         if cfg.DIR_CREATE_CNST ≤ cfg.dir_max_entries then
           link_and_bootstrap cfg
             (st1.disk.set n (sector_data.directory (empty_store cfg.DIR_CREATE_CNST)))
             p name n
         else (false, st1.disk.set n sector_data.reserved)).1 ∧
    (mkdir_alloc cfg st1 k).2.disk =
      (match first_free st1.disk 0 with
       | none => (false, st1.disk)
       | some n =>
         if cfg.DIR_CREATE_CNST ≤ cfg.dir_max_entries then
           link_and_bootstrap cfg
             (st1.disk.set n (sector_data.directory (empty_store cfg.DIR_CREATE_CNST)))
             p name n
         else (false, st1.disk.set n sector_data.reserved)).2 ∧
    (mkdir_alloc cfg st1 k).2.curr_dir = st1.curr_dir := by
  unfold mkdir_alloc free_map_allocate
  cases hf : first_free st1.disk 0 with
  | none => simp
  | some n =>
    simp only
    have hn := (first_free_zero _ _ hf).1
    unfold dir_create
    dsimp only
    by_cases hcap : cfg.DIR_CREATE_CNST ≤ cfg.dir_max_entries
    · have hc2 : cfg.DIR_CREATE_CNST ≤ cfg.dir_max_entries ∧
          n < (st1.disk.set n sector_data.reserved).length := ⟨hcap, by simpa using hn⟩
      simp only [if_pos hc2, if_pos hcap, List.set_set]
      exact hk n ⟨st1.disk.set n (sector_data.directory (empty_store cfg.DIR_CREATE_CNST)),
        st1.next_dir, st1.open_dirs, st1.curr_dir, st1.fd_list⟩ rfl
    · have hc2 : ¬ (cfg.DIR_CREATE_CNST ≤ cfg.dir_max_entries ∧
          n < (st1.disk.set n sector_data.reserved).length) := fun h => hcap h.1
      simp only [if_neg hc2, if_neg hcap]
      simp

theorem mkdir_disk_eq (cfg : Config) (st : State) (path : CString) (p : block_sector_t)
    (hp : path ≠ []) (hres : resolve_sector cfg st path = none)
    (hpar : parent_sector cfg st path = some p) :
    mkdir_disk cfg st path =
      (match first_free st.disk 0 with
       | none => (false, st.disk)
       | some n =>
         if cfg.DIR_CREATE_CNST ≤ cfg.dir_max_entries then
           link_and_bootstrap cfg
             (st.disk.set n (sector_data.directory (empty_store cfg.DIR_CREATE_CNST)))
             p (final_name path) n
         else (false, st.disk.set n sector_data.reserved)) := by
  unfold mkdir_disk
  rw [if_neg hp, hres, hpar]
  simp

theorem mkdir_eq_disk (cfg : Config) (st : State) (path : CString) :
    (mkdir cfg st path).1 = (mkdir_disk cfg st path).1 ∧
    (mkdir cfg st path).2.disk = (mkdir_disk cfg st path).2 ∧
    (mkdir cfg st path).2.curr_dir = st.curr_dir := by
  by_cases hp : path = []
  · subst hp
    simp [mkdir, mkdir_disk, strlen]
  · have hlen : ¬ strlen path = 0 := by
      intro h; apply hp; simpa [strlen] using h
    rw [mkdir_unfold, if_neg hlen]
    have hfr := handle_rel_abs_dir_frame cfg st path
    have hsec := handle_rel_abs_dir_sector cfg st path
    cases hr : handle_rel_abs_dir cfg st path with
    | mk res st1 =>
      rw [hr] at hfr hsec
      simp only at hfr hsec
      cases res with
      | some t =>
        have hres : (resolve_sector cfg st path).isSome = true := by
          rw [← hsec]; rfl
        simp only [mkdir_disk, if_neg hp, if_pos hres, dir_close, hfr.1, hfr.2.1]
        simp
      | none =>
        have hres : resolve_sector cfg st path = none := by
          rw [← hsec]; rfl
        simp only
        have hidx := mkdir_index_last_sep path
        cases hl : last_sep path with
        | none =>
          rw [hl] at hidx
          simp only at hidx
          have hpar : parent_sector cfg st path = some (cwd_sector cfg st) := by
            simp [parent_sector, hl]
          have hfin : final_name path = path := by simp [final_name, hl]
          rw [mkdir_disk_eq cfg st path _ hp hres hpar, hfin, ← hfr.1, ← hfr.2.1]
          rw [if_pos (Or.inr hidx)]
          refine mkdir_alloc_disk cfg st1 _ _ _ ?_
          intro n st4 hc4
          have hdec : decide (mkdir_index path = 0) = true := by simp [hidx]
          have hn1 : ¬ mkdir_index path = 1 := by rw [hidx]; decide
          rw [hdec, if_neg hn1]
          cases hcd : st4.curr_dir with
          | none =>
            have hcs : cwd_sector cfg st = cfg.ROOT_DIR_SECTOR := by
              unfold cwd_sector; rw [← hfr.2.1, ← hc4, hcd]
            rw [hcs, ← hc4]
            exact mkdir_tail_disk cfg st4 (dir_open_root cfg) (dir_open_root cfg) path n
              cfg.ROOT_DIR_SECTOR (fun s => by simp [dir_open_root, dir_open, inode_open])
              (fun s => by simp [dir_open_root, dir_open, inode_open])
          | some cwd =>
            have hcs : cwd_sector cfg st = cwd.inode.sector := by
              unfold cwd_sector; rw [← hfr.2.1, ← hc4, hcd]
            rw [hcs, ← hc4]
            exact mkdir_tail_disk cfg st4 (fun s => (cwd, s)) (fun s => (cwd, s)) path n
              cwd.inode.sector (fun s => by simp) (fun s => by simp)
        | some k =>
          rw [hl] at hidx
          simp only at hidx
          cases k with
          | zero =>
            have hidx1 : mkdir_index path = 1 := by rw [hidx]; rfl
            have hpar : parent_sector cfg st path = some cfg.ROOT_DIR_SECTOR := by
              simp [parent_sector, hl]
            have hfin : final_name path = path.drop 1 := by simp [final_name, hl]
            rw [mkdir_disk_eq cfg st path _ hp hres hpar, hfin, ← hfr.1, ← hfr.2.1]
            rw [if_pos (Or.inl hidx1)]
            refine mkdir_alloc_disk cfg st1 _ _ _ ?_
            intro n st4 hc4
            have hdec : decide (mkdir_index path = 0) = false := by simp [hidx1]
            rw [hdec, if_pos hidx1, ← hc4]
            exact mkdir_tail_disk cfg st4 (dir_open_root cfg) (dir_open_root cfg) _ n
              cfg.ROOT_DIR_SECTOR (fun s => by simp [dir_open_root, dir_open, inode_open])
              (fun s => by simp [dir_open_root, dir_open, inode_open])
          | succ k =>
            have hidx2 : mkdir_index path = ((k + 1 + 1 : Nat) : Int) := hidx
            have hn01 : ¬ (mkdir_index path = 1 ∨ mkdir_index path = 0) := by omega
            have htn : (mkdir_index path).toNat = k + 2 := by omega
            have hprev : strlcpy path (mkdir_index path).toNat = path.take (k + 1) := by
              rw [htn]; simp [strlcpy]
            have hfin : final_name path = path.drop (k + 2) := by simp [final_name, hl]
            rw [if_neg hn01, hprev, htn]
            have hfr2 := handle_rel_abs_dir_frame cfg st1 (path.take (k + 1))
            have hsec2 := handle_rel_abs_dir_sector cfg st1 (path.take (k + 1))
            rw [resolve_sector_congr cfg st st1 _ hfr.1 hfr.2.1] at hsec2
            cases hr2 : handle_rel_abs_dir cfg st1 (path.take (k + 1)) with
            | mk res2 st3 =>
              rw [hr2] at hfr2 hsec2
              simp only at hfr2 hsec2
              cases res2 with
              | none =>
                have hpar : parent_sector cfg st path = none := by
                  simp only [parent_sector, hl]
                  rw [← hsec2]; rfl
                simp only [mkdir_disk, if_neg hp, hres, hpar]
                simp [hfr2.1, hfr2.2.1, hfr.1, hfr.2.1]
              | some target =>
                have hpar : parent_sector cfg st path = some target.inode.sector := by
                  simp only [parent_sector, hl]
                  rw [← hsec2]; rfl
                have hd3 : st3.disk = st.disk := by rw [hfr2.1, hfr.1]
                have hc3 : st3.curr_dir = st.curr_dir := by rw [hfr2.2.1, hfr.2.1]
                rw [mkdir_disk_eq cfg st path _ hp hres hpar, hfin, ← hd3, ← hc3]
                simp only
                refine mkdir_alloc_disk cfg st3 _ _ _ ?_
                intro n st5 hc5
                dsimp only
                rw [← hc5]
                exact mkdir_tail_disk cfg st5 (fun s => (target, s)) (fun s => (target, s)) _ n
                  target.inode.sector (fun s => by simp) (fun s => by simp)

theorem walk_sector_is_dir (disk : List sector_data) :
    ∀ (cs : List CString) (s t : block_sector_t),
      (dir_entries disk s).isSome = true → walk_sector disk cs s = some t →
      (dir_entries disk t).isSome = true := by
  intro cs
  induction cs with
  | nil =>
    intro s t hs h
    simp only [walk_sector, Option.some.injEq] at h
    rw [← h]; exact hs
  | cons c cs ih =>
    intro s t hs h
    unfold walk_sector at h
    cases he : dir_entries disk s with
    | none => rw [he] at h; exact Option.noConfusion h
    | some es =>
      rw [he] at h
      simp only at h
      cases hl : lookup es c with
      | none => rw [hl] at h; exact Option.noConfusion h
      | some u =>
        rw [hl] at h
        simp only at h
        by_cases hd : (dir_entries disk u).isSome = true
        · rw [if_pos hd] at h
          exact ih u t hd h
        · rw [if_neg hd] at h; exact Option.noConfusion h

theorem parent_is_dir (cfg : Config) (st : State) (path : CString) (p : block_sector_t)
    (hwf : fs_wf cfg st) (hpar : parent_sector cfg st path = some p) :
    (dir_entries st.disk p).isSome = true := by
  unfold parent_sector at hpar
  cases hl : last_sep path with
  | none =>
    rw [hl] at hpar
    simp only [Option.some.injEq] at hpar
    rw [← hpar]; exact hwf.2
  | some k =>
    rw [hl] at hpar
    cases k with
    | zero =>
      simp only [Option.some.injEq] at hpar
      rw [← hpar]; exact hwf.1
    | succ k =>
      simp only at hpar
      unfold resolve_sector at hpar
      refine walk_sector_is_dir st.disk _ _ p ?_ hpar
      unfold anchor_sector
      split
      · exact hwf.1
      · exact hwf.2

theorem mkdir_disk_true (cfg : Config) (st : State) (path : CString)
    (h : (mkdir_disk cfg st path).1 = true) :
    ∃ p n d1 d2 d3, path ≠ [] ∧ resolve_sector cfg st path = none ∧
      parent_sector cfg st path = some p ∧ first_free st.disk 0 = some n ∧
      add_entry cfg (st.disk.set n (sector_data.directory (empty_store cfg.DIR_CREATE_CNST)))
        p (final_name path) n = some d1 ∧
      add_entry cfg d1 n ['.'] n = some d2 ∧
      add_entry cfg d2 n ['.', '.'] p = some d3 ∧
      (mkdir_disk cfg st path).2 = d3 := by
  unfold mkdir_disk at h ⊢
  by_cases hp : path = []
  · rw [if_pos hp] at h; exact Bool.noConfusion h
  · rw [if_neg hp] at h ⊢
    by_cases hres : (resolve_sector cfg st path).isSome = true
    · rw [if_pos hres] at h; exact Bool.noConfusion h
    · rw [if_neg hres] at h ⊢
      have hres2 : resolve_sector cfg st path = none := by simpa using hres
      cases hpar : parent_sector cfg st path with
      | none => rw [hpar] at h; exact Bool.noConfusion h
      | some p =>
        rw [hpar] at h
        simp only at h ⊢
        cases hf : first_free st.disk 0 with
        | none => rw [hf] at h; exact Bool.noConfusion h
        | some n =>
          rw [hf] at h
          simp only at h ⊢
          by_cases hcap : cfg.DIR_CREATE_CNST ≤ cfg.dir_max_entries
          · rw [if_pos hcap] at h ⊢
            unfold link_and_bootstrap at h ⊢
            cases ha : add_entry cfg (st.disk.set n
                (sector_data.directory (empty_store cfg.DIR_CREATE_CNST))) p (final_name path) n with
            | none => rw [ha] at h; exact Bool.noConfusion h
            | some d1 =>
              rw [ha] at h
              simp only at h ⊢
              cases hb : add_entry cfg d1 n ['.'] n with
              | none => rw [hb] at h; exact Bool.noConfusion h
              | some d2 =>
                rw [hb] at h
                simp only at h ⊢
                cases hc : add_entry cfg d2 n ['.', '.'] p with
                | none => rw [hc] at h; exact Bool.noConfusion h
                | some d3 =>
                  exact ⟨p, n, d1, d2, d3, hp, hres2, rfl, rfl, ha, hb, hc, rfl⟩
          · rw [if_neg hcap] at h; exact Bool.noConfusion h

theorem lookup_empty_store (cnt : Nat) (nm : CString) : lookup (empty_store cnt) nm = none := by
  unfold empty_store
  induction cnt with
  | zero => simp [lookup]
  | succ k ih => simp [List.replicate_succ, lookup, ih]

/-- C1: on a disk whose root and working directory are directories, if `mkdir`
returns true then, before the call, the parent of the path (the part before the
last separator resolved, the root when that separator leads, the working
directory or the root when there is none) was an existing directory and had no
entry named by the final component. -/
theorem mkdir_true_parent (cfg : Config) (st : State) (path : CString)
    (hwf : fs_wf cfg st) (h : (mkdir cfg st path).1 = true) :
    path ≠ [] ∧
    ∃ p es, parent_sector cfg st path = some p ∧ dir_entries st.disk p = some es ∧
      lookup es (final_name path) = none := by
  rw [(mkdir_eq_disk cfg st path).1] at h
  obtain ⟨p, n, d1, d2, d3, hp, _, hpar, hf, ha, _, _, _⟩ := mkdir_disk_true cfg st path h
  refine ⟨hp, p, ?_⟩
  have hpd := parent_is_dir cfg st path p hwf hpar
  obtain ⟨hn, _, hnd⟩ := first_free_zero _ _ hf
  have hpn : p ≠ n := by
    intro he; rw [he, hnd] at hpd; exact Bool.noConfusion hpd
  obtain ⟨es, es1, hes, hins, _⟩ := add_entry_some cfg _ _ _ _ _ ha
  rw [dir_entries_set_ne _ _ _ _ hpn] at hes
  exact ⟨es, hpar, hes, (insert_some cfg es es1 _ n hins).1⟩

/-- Witness of C1: `mkdir ("a")` on a freshly formatted disk. -/
theorem mkdir_true_parent_witness :
    fs_wf sample_cfg sample_state ∧ (mkdir sample_cfg sample_state ['a']).1 = true ∧
    (['a'] : CString) ≠ [] ∧
    ∃ p es, parent_sector sample_cfg sample_state ['a'] = some p ∧
      dir_entries sample_state.disk p = some es ∧ lookup es (final_name ['a']) = none :=
  ⟨⟨by decide, by decide⟩, by decide,
    mkdir_true_parent sample_cfg sample_state ['a'] ⟨by decide, by decide⟩ (by decide)⟩

/-- C3: if `mkdir` returns true then the sector it allocated, free before the
call, is afterwards a directory holding `.` with its own number and `..` with
the number of the parent of the path (the root for a leading last separator or
an unset working directory without separator, the working directory without
separator, the resolved parent otherwise); and on a disk whose root and working
directory are directories, that parent holds the final name with the new
number. -/
theorem mkdir_true_bootstrap (cfg : Config) (st : State) (path : CString)
    (h : (mkdir cfg st path).1 = true) :
    ∃ p n es, parent_sector cfg st path = some p ∧ st.disk[n]? = some sector_data.free ∧
      dir_entries (mkdir cfg st path).2.disk n = some es ∧
      lookup es ['.'] = some n ∧ lookup es ['.', '.'] = some p ∧
      (fs_wf cfg st → ∃ esp, dir_entries (mkdir cfg st path).2.disk p = some esp ∧
        lookup esp (final_name path) = some n) := by
  rw [(mkdir_eq_disk cfg st path).1] at h
  rw [(mkdir_eq_disk cfg st path).2.1]
  obtain ⟨p, n, d1, d2, d3, hp, _, hpar, hf, ha, hb, hc, hd⟩ := mkdir_disk_true cfg st path h
  rw [hd]
  obtain ⟨hn, hfree, hnd⟩ := first_free_zero _ _ hf
  obtain ⟨esa, esa1, _, hinsa, _, ha1, _, _⟩ := add_entry_some cfg _ _ _ _ _ ha
  obtain ⟨esb, esb1, _, hinsb, _, hb1, hb2, _⟩ := add_entry_some cfg _ _ _ _ _ hb
  obtain ⟨esc, esc1, hc0, hinsc, _, hc1, hc2, _⟩ := add_entry_some cfg _ _ _ _ _ hc
  have hbc : esc = esb1 := by
    rw [hb1] at hc0; exact (Option.some.inj hc0).symm
  subst hbc
  obtain ⟨_, _, _, hlc, hoc⟩ := insert_some cfg _ _ _ _ hinsc
  obtain ⟨_, _, _, hlb, _⟩ := insert_some cfg _ _ _ _ hinsb
  refine ⟨p, n, esc1, hpar, hfree, hc1, ?_, hlc, ?_⟩
  · rw [hoc ['.'] (by decide)]; exact hlb
  · intro hwf
    have hpd := parent_is_dir cfg st path p hwf hpar
    have hpn : p ≠ n := by
      intro he; rw [he, hnd] at hpd; exact Bool.noConfusion hpd
    refine ⟨esa1, ?_, (insert_some cfg _ _ _ _ hinsa).2.2.2.1⟩
    rw [hc2 p hpn, hb2 p hpn]; exact ha1

/-- Witness of C3: `mkdir ("a")` on a freshly formatted disk. -/
theorem mkdir_true_bootstrap_witness :
    (mkdir sample_cfg sample_state ['a']).1 = true ∧
    ∃ p n es, parent_sector sample_cfg sample_state ['a'] = some p ∧
      sample_state.disk[n]? = some sector_data.free ∧
      dir_entries (mkdir sample_cfg sample_state ['a']).2.disk n = some es ∧
      lookup es ['.'] = some n ∧ lookup es ['.', '.'] = some p ∧
      (fs_wf sample_cfg sample_state →
        ∃ esp, dir_entries (mkdir sample_cfg sample_state ['a']).2.disk p = some esp ∧
          lookup esp (final_name ['a']) = some n) :=
  ⟨by decide, mkdir_true_bootstrap sample_cfg sample_state ['a'] (by decide)⟩

/-! ## Successful creation -/

theorem fill_slot_none (e : dir_entry) :
    ∀ (es : List dir_entry), fill_slot es e = none →
      (es.filter (fun x => !x.in_use)).length = 0 := by
  intro es
  induction es with
  | nil => intro _; rfl
  | cons x rest ih =>
    intro h
    unfold fill_slot at h
    by_cases hx : x.in_use = true
    · simp only [hx, if_true] at h
      have hr : fill_slot rest e = none := by
        cases hf : fill_slot rest e with
        | none => rfl
        | some r => rw [hf] at h; simp at h
      simp [List.filter_cons, hx, ih hr]
    · simp [hx] at h

theorem fill_slot_some (e : dir_entry) (he : e.in_use = true) :
    ∀ (es es1 : List dir_entry), fill_slot es e = some es1 →
      es1.length = es.length ∧
      (es1.filter (fun x => !x.in_use)).length + 1 = (es.filter (fun x => !x.in_use)).length := by
  intro es
  induction es with
  | nil => intro es1 h; simp [fill_slot] at h
  | cons x rest ih =>
    intro es1 h
    unfold fill_slot at h
    by_cases hx : x.in_use = true
    · simp only [hx, if_true] at h
      cases hf : fill_slot rest e with
      | none => rw [hf] at h; simp at h
      | some r =>
        rw [hf] at h
        simp only [Option.map_some', Option.some.injEq] at h
        subst h
        have := ih r hf
        simp [List.filter_cons, hx, this.1]
        exact this.2
    · simp only [hx] at h
      simp only [Bool.false_eq_true, if_false, Option.some.injEq] at h
      subst h
      have hx2 : x.in_use = false := by simpa using hx
      simp [List.filter_cons, hx2, he]

theorem insert_succeeds (cfg : Config) (es : List dir_entry) (name : CString)
    (t : block_sector_t) (h1 : name ≠ []) (h2 : strlen name ≤ cfg.NAME_MAX)
    (h3 : lookup es name = none) (h4 : 1 ≤ free_slots cfg es) :
    ∃ es1, insert cfg es name t = some es1 ∧ free_slots cfg es1 + 1 = free_slots cfg es := by
  unfold insert
  have hv : ¬ (name = [] ∨ strlen name > cfg.NAME_MAX) := by
    rintro (h | h)
    · exact h1 h
    · omega
  rw [if_neg hv, h3]
  simp only [Option.isSome_none, Bool.false_eq_true, if_false]
  cases hf : fill_slot es { inode_sector := t, name := name, in_use := true } with
  | some r =>
    refine ⟨r, rfl, ?_⟩
    have := fill_slot_some _ rfl es r hf
    unfold free_slots
    rw [this.1]; omega
  | none =>
    have h0 := fill_slot_none _ es hf
    unfold free_slots at h4 ⊢
    have hlt : es.length < cfg.dir_max_entries := by omega
    simp only [if_pos hlt]
    refine ⟨_, rfl, ?_⟩
    simp [List.filter_append, h0]
    omega

theorem free_slots_empty_store (cfg : Config) (cnt : Nat) (h : cnt ≤ cfg.dir_max_entries) :
    free_slots cfg (empty_store cnt) = cfg.dir_max_entries := by
  unfold free_slots empty_store
  have : (List.filter (fun e => !e.in_use)
      (List.replicate cnt ({ inode_sector := 0, name := [], in_use := false } : dir_entry)))
      = List.replicate cnt { inode_sector := 0, name := [], in_use := false } := by
    rw [List.filter_eq_self]
    intro a ha
    rw [(List.mem_replicate.1 ha).2]
    rfl
  rw [this]
  simp
  omega

theorem first_free_of_count :
    ∀ (disk : List sector_data) (base : Nat), 1 ≤ free_count disk →
      ∃ n, first_free disk base = some n := by
  intro disk
  induction disk with
  | nil => intro base h; simp [free_count] at h
  | cons x rest ih =>
    intro base h
    unfold first_free
    by_cases hx : x = sector_data.free
    · exact ⟨base, by simp [hx]⟩
    · simp only [hx, if_false]
      apply ih
      unfold free_count at h ⊢
      rw [List.count_cons] at h
      have : (x == sector_data.free) = false := by simpa using hx
      simpa [this] using h

theorem free_count_set_directory (disk : List sector_data) (i : Nat) (es : List dir_entry)
    (h : i < disk.length) :
    free_count (disk.set i (sector_data.directory es)) =
      free_count disk - (if disk[i] = sector_data.free then 1 else 0) := by
  unfold free_count
  rw [List.count_set _ _ _ _ h]
  simp

theorem dir_entries_getElem (disk : List sector_data) (s : block_sector_t)
    (es : List dir_entry) (h : dir_entries disk s = some es) :
    ∃ hlt : s < disk.length, disk[s] = sector_data.directory es := by
  have hlt := dir_entries_lt disk s es h
  refine ⟨hlt, ?_⟩
  unfold dir_entries at h
  simp only [List.get?_eq_getElem?, List.getElem?_eq_getElem hlt] at h
  cases hx : disk[s] with
  | directory e =>
    rw [hx] at h
    simp only [Option.some.injEq] at h
    rw [h]
  | free => rw [hx] at h; exact Option.noConfusion h
  | reserved => rw [hx] at h; exact Option.noConfusion h
  | file => rw [hx] at h; exact Option.noConfusion h

theorem add_entry_succeeds (cfg : Config) (disk : List sector_data) (p : block_sector_t)
    (es : List dir_entry) (name : CString) (t : block_sector_t)
    (hes : dir_entries disk p = some es) (h1 : name ≠ []) (h2 : strlen name ≤ cfg.NAME_MAX)
    (h3 : lookup es name = none) (h4 : 1 ≤ free_slots cfg es) :
    ∃ es1 d1, add_entry cfg disk p name t = some d1 ∧ insert cfg es name t = some es1 ∧
      free_slots cfg es1 + 1 = free_slots cfg es ∧ dir_entries d1 p = some es1 ∧
      (∀ q, q ≠ p → dir_entries d1 q = dir_entries disk q) ∧
      free_count d1 = free_count disk ∧ d1.length = disk.length := by
  obtain ⟨es1, hins, hfs⟩ := insert_succeeds cfg es name t h1 h2 h3 h4
  obtain ⟨hlt, hget⟩ := dir_entries_getElem disk p es hes
  refine ⟨es1, disk.set p (sector_data.directory es1), ?_, hins, hfs,
    dir_entries_set_self _ _ _ hlt, fun q hq => dir_entries_set_ne _ _ _ _ hq, ?_, by simp⟩
  · unfold add_entry
    rw [hes]
    simp only
    rw [hins]
  · rw [free_count_set_directory _ _ _ hlt, hget]
    simp

theorem mkdir_disk_succeeds (cfg : Config) (st : State) (path : CString)
    (p : block_sector_t) (es : List dir_entry)
    (hp : path ≠ []) (hres : resolve_sector cfg st path = none)
    (hpar : parent_sector cfg st path = some p)
    (hes : dir_entries st.disk p = some es) (hlk : lookup es (final_name path) = none)
    (hn1 : final_name path ≠ []) (hn2 : strlen (final_name path) ≤ cfg.NAME_MAX)
    (hroom : 1 ≤ free_slots cfg es) (hfree : 1 ≤ free_count st.disk)
    (hcap : cfg.DIR_CREATE_CNST ≤ cfg.dir_max_entries) (hmax : 2 ≤ cfg.dir_max_entries)
    (hnm : 2 ≤ cfg.NAME_MAX) :
    ∃ n es1 en, dir_entries st.disk n = none ∧ p ≠ n ∧
      (mkdir_disk cfg st path).1 = true ∧
      dir_entries (mkdir_disk cfg st path).2 p = some es1 ∧
      lookup es1 (final_name path) = some n ∧
      (∀ nm, nm ≠ final_name path → lookup es1 nm = lookup es nm) ∧
      dir_entries (mkdir_disk cfg st path).2 n = some en ∧
      (∀ nm, is_dot nm = false → lookup en nm = none) ∧
      free_slots cfg en + 2 = cfg.dir_max_entries ∧
      (∀ q, q ≠ p → q ≠ n → dir_entries (mkdir_disk cfg st path).2 q = dir_entries st.disk q) ∧
      free_count (mkdir_disk cfg st path).2 + 1 = free_count st.disk := by
  obtain ⟨n, hf⟩ := first_free_of_count st.disk 0 hfree
  obtain ⟨hn, hfreen, hnd⟩ := first_free_zero _ _ hf
  have hpn : p ≠ n := by
    intro he; rw [he, hnd] at hes; exact Option.noConfusion hes
  have hd0p : dir_entries (st.disk.set n
      (sector_data.directory (empty_store cfg.DIR_CREATE_CNST))) p = some es := by
    rw [dir_entries_set_ne _ _ _ _ hpn]; exact hes
  obtain ⟨es1, d1, ha, hinsa, _, ha1, ha2, ha3, ha4⟩ :=
    add_entry_succeeds cfg _ p es (final_name path) n hd0p hn1 hn2 hlk hroom
  have hd1n : dir_entries d1 n = some (empty_store cfg.DIR_CREATE_CNST) := by
    rw [ha2 n (fun he => hpn he.symm)]
    exact dir_entries_set_self _ _ _ hn
  obtain ⟨eb1, d2, hb, hinsb, hbs, hb1, hb2, hb3, hb4⟩ :=
    add_entry_succeeds cfg d1 n _ ['.'] n hd1n (by decide) (by simp [strlen]; omega)
      (lookup_empty_store _ _) (by rw [free_slots_empty_store cfg _ hcap]; omega)
  have hlb : lookup eb1 ['.', '.'] = none := by
    rw [(insert_some cfg _ _ _ _ hinsb).2.2.2.2 ['.', '.'] (by decide)]
    exact lookup_empty_store _ _
  rw [free_slots_empty_store cfg _ hcap] at hbs
  obtain ⟨ec1, d3, hc, hinsc, hcs, hc1, hc2, hc3, hc4⟩ :=
    add_entry_succeeds cfg d2 n eb1 ['.', '.'] p hb1 (by decide) (by simp [strlen]; omega)
      hlb (by omega)
  have hres2 : ¬ (resolve_sector cfg st path).isSome = true := by rw [hres]; simp
  have hmk : mkdir_disk cfg st path = (true, d3) := by
    unfold mkdir_disk
    rw [if_neg hp, if_neg hres2, hpar]
    simp only
    rw [hf]
    simp only
    rw [if_pos hcap]
    unfold link_and_bootstrap
    rw [ha]
    simp only
    rw [hb]
    simp only
    rw [hc]
  rw [hmk]
  refine ⟨n, es1, ec1, hnd, hpn, rfl, ?_, (insert_some cfg _ _ _ _ hinsa).2.2.2.1,
    (insert_some cfg _ _ _ _ hinsa).2.2.2.2, hc1, ?_, by omega, ?_, ?_⟩
  · show dir_entries d3 p = some es1
    rw [hc2 p hpn, hb2 p hpn]; exact ha1
  · intro nm hdot
    have hne : nm ≠ ['.'] ∧ nm ≠ ['.', '.'] := by
      unfold is_dot at hdot
      have := of_decide_eq_false hdot
      constructor
      · intro h; exact this (Or.inl h)
      · intro h; exact this (Or.inr h)
    rw [(insert_some cfg _ _ _ _ hinsc).2.2.2.2 nm hne.2,
      (insert_some cfg _ _ _ _ hinsb).2.2.2.2 nm hne.1]
    exact lookup_empty_store _ _
  · intro q hqp hqn
    show dir_entries d3 q = dir_entries st.disk q
    rw [hc2 q hqn, hb2 q hqn, ha2 q hqp, dir_entries_set_ne _ _ _ _ hqn]
  · show free_count d3 + 1 = free_count st.disk
    rw [hc3, hb3, ha3, free_count_set_directory _ _ _ hn]
    have hg : st.disk[n] = sector_data.free := by
      rw [List.getElem?_eq_getElem hn] at hfreen
      exact Option.some.inj hfreen
    rw [hg]
    simp
    omega

/-! ## Failed creation -/

theorem split_path_aux_append :
    ∀ (a tail cur : CString), '/' ∉ a →
      split_path_aux (a ++ tail) cur = split_path_aux tail (a.reverse ++ cur) := by
  intro a
  induction a with
  | nil => intro tail cur _; rfl
  | cons x rest ih =>
    intro tail cur h
    have hx : x ≠ '/' := fun he => h (by simp [he])
    have hr : '/' ∉ rest := fun hm => h (List.mem_cons_of_mem _ hm)
    rw [List.cons_append, split_path_aux, if_neg hx, ih tail (x :: cur) hr]
    simp

theorem split_path_name (a : CString) (h1 : a ≠ []) (h2 : '/' ∉ a) : split_path a = [a] := by
  have := split_path_aux_append a [] [] h2
  simp only [List.append_nil] at this
  unfold split_path
  rw [this]
  simp [split_path_aux, h1]

theorem split_path_cons (a rest : CString) (h1 : a ≠ []) (h2 : '/' ∉ a) :
    split_path (a ++ '/' :: rest) = a :: split_path rest := by
  unfold split_path
  rw [split_path_aux_append a _ [] h2]
  simp [split_path_aux, h1]

theorem last_sep_none (x : CString) (h : '/' ∉ x) : last_sep x = none := by
  induction x with
  | nil => rfl
  | cons c rest ih =>
    have hc : c ≠ '/' := fun he => h (by simp [he])
    have hr : '/' ∉ rest := fun hm => h (List.mem_cons_of_mem _ hm)
    simp [last_sep, ih hr, hc]

theorem last_sep_append (pre x : CString) (h : '/' ∉ x) :
    last_sep (pre ++ '/' :: x) = some pre.length := by
  induction pre with
  | nil => simp [last_sep, last_sep_none x h]
  | cons c rest ih => simp [last_sep, ih]

theorem head_append_name (a t : CString) (h1 : a ≠ []) (h2 : '/' ∉ a) :
    (a ++ t).head? ≠ some '/' := by
  cases a with
  | nil => exact absurd rfl h1
  | cons c rest =>
    have hc : c ≠ '/' := fun he => h2 (by simp [he])
    simpa using hc

theorem walk_child (disk : List sector_data) (s t : block_sector_t) (nm : CString)
    (cs : List CString) (h : child disk s nm t) :
    walk_sector disk (nm :: cs) s = walk_sector disk cs t := by
  obtain ⟨es, hes, hl, hd⟩ := h
  simp [walk_sector, hes, hl, hd]

theorem walk_no_child (disk : List sector_data) (s : block_sector_t) (nm : CString)
    (cs : List CString) (es : List dir_entry) (hes : dir_entries disk s = some es)
    (hl : lookup es nm = none) : walk_sector disk (nm :: cs) s = none := by
  simp [walk_sector, hes, hl]

theorem resolve_relative (cfg : Config) (st : State) (path : CString)
    (h : path.head? ≠ some '/') :
    resolve_sector cfg st path = walk_sector st.disk (split_path path) (cwd_sector cfg st) := by
  unfold resolve_sector anchor_sector
  rw [if_neg h]

theorem parent_of_nested (cfg : Config) (st : State) (pre x : CString)
    (h1 : pre ≠ []) (h2 : '/' ∉ x) :
    parent_sector cfg st (pre ++ '/' :: x) = resolve_sector cfg st pre ∧
    final_name (pre ++ '/' :: x) = x := by
  obtain ⟨k, hk⟩ : ∃ k, pre.length = k + 1 := by
    cases pre with
    | nil => exact absurd rfl h1
    | cons c rest => exact ⟨rest.length, rfl⟩
  have hl := last_sep_append pre x h2
  constructor
  · unfold parent_sector
    rw [hl, hk]
    simp only
    rw [← hk]
    simp
  · unfold final_name
    rw [hl]
    simp

theorem mkdir_exists (cfg : Config) (st : State) (path : CString) (t : block_sector_t)
    (h : resolve_sector cfg st path = some t) : (mkdir cfg st path).1 = false := by
  rw [(mkdir_eq_disk cfg st path).1]
  unfold mkdir_disk
  by_cases hp : path = []
  · rw [if_pos hp]
  · rw [if_neg hp, h]
    simp

theorem mkdir_step (cfg : Config) (st : State) (path : CString)
    (p : block_sector_t) (es : List dir_entry)
    (hp : path ≠ []) (hres : resolve_sector cfg st path = none)
    (hpar : parent_sector cfg st path = some p)
    (hes : dir_entries st.disk p = some es) (hlk : lookup es (final_name path) = none)
    (hn1 : final_name path ≠ []) (hn2 : strlen (final_name path) ≤ cfg.NAME_MAX)
    (hroom : 1 ≤ free_slots cfg es) (hfree : 1 ≤ free_count st.disk)
    (hcap : cfg.DIR_CREATE_CNST ≤ cfg.dir_max_entries) (hmax : 2 ≤ cfg.dir_max_entries)
    (hnm : 2 ≤ cfg.NAME_MAX) :
    ∃ n en, dir_entries st.disk n = none ∧ p ≠ n ∧
      (mkdir cfg st path).1 = true ∧
      (mkdir cfg st path).2.curr_dir = st.curr_dir ∧
      child (mkdir cfg st path).2.disk p (final_name path) n ∧
      (∀ s nm t, child st.disk s nm t → (s ≠ p ∨ nm ≠ final_name path) →
        child (mkdir cfg st path).2.disk s nm t) ∧
      dir_entries (mkdir cfg st path).2.disk n = some en ∧
      (∀ nm, is_dot nm = false → lookup en nm = none) ∧
      free_slots cfg en + 2 = cfg.dir_max_entries ∧
      free_count (mkdir cfg st path).2.disk + 1 = free_count st.disk := by
  obtain ⟨n, es1, en, hnd, hpn, htrue, hd1, hl1, hl2, hdn, hen, hfs, hoth, hfc⟩ :=
    mkdir_disk_succeeds cfg st path p es hp hres hpar hes hlk hn1 hn2 hroom hfree hcap hmax hnm
  obtain ⟨e1, e2, e3⟩ := mkdir_eq_disk cfg st path
  rw [e1, e2, e3]
  have hdir : ∀ t, (dir_entries st.disk t).isSome = true →
      (dir_entries (mkdir_disk cfg st path).2 t).isSome = true := by
    intro t ht
    by_cases htp : t = p
    · rw [htp, hd1]; rfl
    · have htn : t ≠ n := by
        intro he; rw [he, hnd] at ht; exact Bool.noConfusion ht
      rw [hoth t htp htn]; exact ht
  refine ⟨n, en, hnd, hpn, htrue, rfl, ⟨es1, hd1, hl1, by rw [hdn]; rfl⟩, ?_, hdn, hen, hfs, hfc⟩
  rintro s nm t ⟨e, he, hle, hdt⟩ hor
  have hsn : s ≠ n := by
    intro h; rw [h, hnd] at he; exact Option.noConfusion he
  by_cases hsp : s = p
  · subst hsp
    have hnm2 : nm ≠ final_name path := by
      rcases hor with h | h
      · exact absurd rfl h
      · exact h
    have hee : e = es := by
      rw [hes] at he; exact (Option.some.inj he).symm
    subst hee
    exact ⟨es1, hd1, by rw [hl2 nm hnm2]; exact hle, hdir t hdt⟩
  · exact ⟨e, by rw [hoth s hsp hsn]; exact he, hle, hdir t hdt⟩

/-- C2: for valid component names `a`, `b`, `c`, from a state where the anchor
directory (the working directory, the root when unset) has no entry `a` and
room for one, the disk has three free sectors and a new entry store can be set
up and hold three entries, the calls `mkdir ("a")`, `mkdir ("a/b")`,
`mkdir ("a/b/c")` each return true, and one more `mkdir ("a/b/c")` returns
false. -/
theorem mkdir_nested (cfg : Config) (st : State) (a b c : CString)
    (ha : valid_name cfg a) (hb : valid_name cfg b) (hc : valid_name cfg c)
    (hnm : 2 ≤ cfg.NAME_MAX) (hcap : cfg.DIR_CREATE_CNST ≤ cfg.dir_max_entries)
    (hmax : 3 ≤ cfg.dir_max_entries) (hfree : 3 ≤ free_count st.disk)
    (hanchor : ∃ es, dir_entries st.disk (cwd_sector cfg st) = some es ∧
      lookup es a = none ∧ 1 ≤ free_slots cfg es) :
    (mkdir cfg st a).1 = true ∧
    (mkdir cfg (mkdir cfg st a).2 (a ++ '/' :: b)).1 = true ∧
    (mkdir cfg (mkdir cfg (mkdir cfg st a).2 (a ++ '/' :: b)).2
      (a ++ '/' :: b ++ '/' :: c)).1 = true ∧
    (mkdir cfg (mkdir cfg (mkdir cfg (mkdir cfg st a).2 (a ++ '/' :: b)).2
      (a ++ '/' :: b ++ '/' :: c)).2 (a ++ '/' :: b ++ '/' :: c)).1 = false := by
  obtain ⟨es0, hes0, hla, hroom0⟩ := hanchor
  obtain ⟨ha1, ha2, ha3, _⟩ := ha
  obtain ⟨hb1, hb2, hb3, hbd⟩ := hb
  obtain ⟨hc1, hc2, hc3, hcd⟩ := hc
  -- the first call
  have hrel1 : a.head? ≠ some '/' := by
    have := head_append_name a [] ha1 ha2
    simpa using this
  have hres1 : resolve_sector cfg st a = none := by
    rw [resolve_relative cfg st a hrel1, split_path_name a ha1 ha2]
    exact walk_no_child _ _ _ _ es0 hes0 hla
  have hls1 := last_sep_none a ha2
  have hpar1 : parent_sector cfg st a = some (cwd_sector cfg st) := by
    simp [parent_sector, hls1]
  have hfin1 : final_name a = a := by simp [final_name, hls1]
  obtain ⟨n1, en1, hnd1, hpn1, ht1, hcd1, hch1, _, hdn1, hen1, hfs1, hfc1⟩ :=
    mkdir_step cfg st a (cwd_sector cfg st) es0 ha1 hres1 hpar1 hes0
      (by rw [hfin1]; exact hla) (by rw [hfin1]; exact ha1) (by rw [hfin1]; exact ha3)
      hroom0 (by omega) hcap (by omega) hnm
  rw [hfin1] at hch1
  refine ⟨ht1, ?_⟩
  generalize (mkdir cfg st a).2 = st1 at hcd1 hch1 hdn1 hfc1 ⊢
  have hcw1 : cwd_sector cfg st1 = cwd_sector cfg st := by
    unfold cwd_sector; rw [hcd1]
  -- the second call
  have hrel2 : (a ++ '/' :: b).head? ≠ some '/' := head_append_name a _ ha1 ha2
  have hsp2 : split_path (a ++ '/' :: b) = [a, b] := by
    rw [split_path_cons a b ha1 ha2, split_path_name b hb1 hb2]
  have hres2 : resolve_sector cfg st1 (a ++ '/' :: b) = none := by
    rw [resolve_relative cfg st1 _ hrel2, hsp2, hcw1, walk_child _ _ _ _ _ hch1]
    exact walk_no_child _ _ _ _ en1 hdn1 (hen1 b hbd)
  have hpf2 := parent_of_nested cfg st1 a b ha1 hb2
  have hpar2 : parent_sector cfg st1 (a ++ '/' :: b) = some n1 := by
    rw [hpf2.1, resolve_relative cfg st1 a hrel1, split_path_name a ha1 ha2, hcw1,
      walk_child _ _ _ _ _ hch1]
    rfl
  obtain ⟨n2, en2, hnd2, hpn2, ht2, hcd2, hch2, hpres2, hdn2, hen2, hfs2, hfc2⟩ :=
    mkdir_step cfg st1 (a ++ '/' :: b) n1 en1 (by simp) hres2 hpar2 hdn1
      (by rw [hpf2.2]; exact hen1 b hbd) (by rw [hpf2.2]; exact hb1)
      (by rw [hpf2.2]; exact hb3) (by omega) (by omega) hcap (by omega) hnm
  rw [hpf2.2] at hch2 hpres2
  have hch1b := hpres2 _ _ _ hch1 (Or.inl hpn1)
  have hp0n2 : cwd_sector cfg st ≠ n2 := by
    intro he
    obtain ⟨e, he1, _, _⟩ := hch1
    rw [he, hnd2] at he1
    exact Option.noConfusion he1
  refine ⟨ht2, ?_⟩
  generalize (mkdir cfg st1 (a ++ '/' :: b)).2 = st2 at hcd2 hch2 hdn2 hfc2 hch1b ⊢
  have hcw2 : cwd_sector cfg st2 = cwd_sector cfg st := by
    unfold cwd_sector; rw [hcd2, hcd1]
  -- the third call
  have hassoc : a ++ '/' :: b ++ '/' :: c = a ++ '/' :: (b ++ '/' :: c) := by simp
  have hrel3 : (a ++ '/' :: b ++ '/' :: c).head? ≠ some '/' := by
    rw [hassoc]; exact head_append_name a _ ha1 ha2
  have hsp3 : split_path (a ++ '/' :: b ++ '/' :: c) = [a, b, c] := by
    rw [hassoc, split_path_cons a _ ha1 ha2, split_path_cons b c hb1 hb2,
      split_path_name c hc1 hc2]
  have hres3 : resolve_sector cfg st2 (a ++ '/' :: b ++ '/' :: c) = none := by
    rw [resolve_relative cfg st2 _ hrel3, hsp3, hcw2, walk_child _ _ _ _ _ hch1b,
      walk_child _ _ _ _ _ hch2]
    exact walk_no_child _ _ _ _ en2 hdn2 (hen2 c hcd)
  have hpf3 := parent_of_nested cfg st2 (a ++ '/' :: b) c (by simp) hc2
  have hpar3 : parent_sector cfg st2 (a ++ '/' :: b ++ '/' :: c) = some n2 := by
    rw [hpf3.1, resolve_relative cfg st2 _ hrel2, hsp2, hcw2, walk_child _ _ _ _ _ hch1b,
      walk_child _ _ _ _ _ hch2]
    rfl
  obtain ⟨n3, en3, hnd3, hpn3, ht3, hcd3, hch3, hpres3, hdn3, _, _, _⟩ :=
    mkdir_step cfg st2 (a ++ '/' :: b ++ '/' :: c) n2 en2 (by simp) hres3 hpar3 hdn2
      (by rw [hpf3.2]; exact hen2 c hcd) (by rw [hpf3.2]; exact hc1)
      (by rw [hpf3.2]; exact hc3) (by omega) (by omega) hcap (by omega) hnm
  rw [hpf3.2] at hch3 hpres3
  have hch1c := hpres3 _ _ _ hch1b (Or.inl hp0n2)
  have hch2c := hpres3 _ _ _ hch2 (Or.inl hpn2)
  refine ⟨ht3, ?_⟩
  generalize (mkdir cfg st2 (a ++ '/' :: b ++ '/' :: c)).2 = st3 at hcd3 hch3 hch1c hch2c ⊢
  have hcw3 : cwd_sector cfg st3 = cwd_sector cfg st := by
    unfold cwd_sector; rw [hcd3, hcd2, hcd1]
  -- the fourth call
  apply mkdir_exists cfg st3 _ n3
  rw [resolve_relative cfg st3 _ hrel3, hsp3, hcw3, walk_child _ _ _ _ _ hch1c,
    walk_child _ _ _ _ _ hch2c, walk_child _ _ _ _ _ hch3]
  rfl

/-- Witness of C2: the names `a`, `b`, `c` on a freshly formatted disk. -/
theorem mkdir_nested_witness :
    valid_name sample_cfg ['a'] ∧ valid_name sample_cfg ['b'] ∧ valid_name sample_cfg ['c'] ∧
    2 ≤ sample_cfg.NAME_MAX ∧ sample_cfg.DIR_CREATE_CNST ≤ sample_cfg.dir_max_entries ∧
    3 ≤ sample_cfg.dir_max_entries ∧ 3 ≤ free_count sample_state.disk ∧
    (∃ es, dir_entries sample_state.disk (cwd_sector sample_cfg sample_state) = some es ∧
      lookup es ['a'] = none ∧ 1 ≤ free_slots sample_cfg es) ∧
    (mkdir sample_cfg sample_state ['a']).1 = true ∧
    (mkdir sample_cfg (mkdir sample_cfg sample_state ['a']).2 (['a'] ++ '/' :: ['b'])).1 = true ∧
    (mkdir sample_cfg (mkdir sample_cfg (mkdir sample_cfg sample_state ['a']).2
      (['a'] ++ '/' :: ['b'])).2 (['a'] ++ '/' :: ['b'] ++ '/' :: ['c'])).1 = true ∧
    (mkdir sample_cfg (mkdir sample_cfg (mkdir sample_cfg (mkdir sample_cfg sample_state ['a']).2
      (['a'] ++ '/' :: ['b'])).2 (['a'] ++ '/' :: ['b'] ++ '/' :: ['c'])).2
      (['a'] ++ '/' :: ['b'] ++ '/' :: ['c'])).1 = false :=
  have ha : valid_name sample_cfg ['a'] := ⟨by decide, by decide, by decide, by decide⟩
  have hb : valid_name sample_cfg ['b'] := ⟨by decide, by decide, by decide, by decide⟩
  have hc : valid_name sample_cfg ['c'] := ⟨by decide, by decide, by decide, by decide⟩
  have hanchor : ∃ es, dir_entries sample_state.disk (cwd_sector sample_cfg sample_state)
      = some es ∧ lookup es ['a'] = none ∧ 1 ≤ free_slots sample_cfg es :=
    ⟨empty_store 16, by decide, by decide, by decide⟩
  ⟨ha, hb, hc, by decide, by decide, by decide, by decide, hanchor,
    mkdir_nested sample_cfg sample_state ['a'] ['b'] ['c'] ha hb hc (by decide) (by decide)
      (by decide) (by decide) hanchor⟩

theorem chdir_unset_rejects (cfg : Config) (st : State) (path : CString)
    (hc : st.curr_dir = none)
    (hp : path = ['/'] ∨ path = ['.', '.'] ∨ path = ['.']) :
    chdir cfg st (some path) = (false, st) := by
  have hlen : ¬ strlen path = 0 := by
    rcases hp with h | h | h <;> rw [h] <;> decide
  simp only [chdir, hc, if_neg hlen]
  rw [if_pos]
  refine ⟨by simp, ?_⟩
  simp only [strcmp_eq_zero]
  exact hp

theorem isdir_empty_slot (st : State) (fd : Nat) (h : st.fd_list fd = none) :
    isdir st fd = some true := by
  simp [isdir, h, int_to_bool]

theorem isdir_known (st : State) (fd : Nat) (f : file) (i : inode)
    (h : st.fd_list fd = some f) (hi : f.inode = some i) :
    isdir st fd = some (inode_is_subdir st i) := by
  simp [isdir, h, file_get_inode, hi]

end Syscall
